import Mathlib

/-!
Verification of the operation-folding / constant-uniquing engine
(`OperationFolder` in `lib/Transforms/Utils/FoldUtils.cpp` and
`include/mlir/Transforms/FoldUtils.h`).

The IR is shallowly embedded: an operation is a record of its mutable
fields (operand list, result types, constant-ness, commutativity), the
function body is a list of blocks holding operation ids (the head block
is the entry block), and the folder's state bundles the alive
operations, the block structure, the `uniquedConstants` cache and a
fresh-id counter.  The operation-specific `fold` hook — an external
collaborator of the engine — is a parameter of the folding functions.
-/

namespace MLIRFold

/-- Constant attribute payloads (opaque to the engine). -/
abbrev Attr := Nat

/-- IR types (opaque to the engine; compared nominally). -/
abbrev Ty := Nat

/-- An SSA value: the `idx`-th result of operation `producer`. -/
structure Val where
  producer : Nat
  idx : Nat
deriving DecidableEq, Repr

/-- The mutable record of one IR operation.  `isConstant` models
`dyn_cast<ConstantOp>` / the constant-matcher capability succeeding;
`constValue` is the attribute such a match yields. -/
structure Operation where
  isConstant : Bool
  constValue : Attr
  commutative : Bool
  operands : List Val
  resultTypes : List Ty
deriving DecidableEq, Repr

/-- Number of declared results (`op->getNumResults()`). -/
def Operation.numResults (op : Operation) : Nat :=
  op.resultTypes.length

/-- One per-result outcome of the fold hook (`OpFoldResult`): either an
existing SSA value or a computed constant attribute. -/
inductive FoldRes where
  | value (v : Val)
  | attr (a : Attr)
deriving DecidableEq, Repr

/-- The operation fold hook (`op->fold(operandConstants, foldResults)`):
given the operation and the constant-or-absent operand array, `none`
means failure, `some rs` success with per-result outcomes (`some []`
is an in-place update). -/
abbrev FoldHook := Operation → List (Option Attr) → Option (List FoldRes)

/-- The state of one function body plus the folder's bookkeeping:
`ops` maps alive operation ids to their records, `blocks` is the list
of blocks (the head is the entry block) holding operation ids in
program order, `uniquedConstants` is the folder's uniquing cache, and
`nextId` the allocator for fresh operation ids. -/
structure FoldState where
  ops : List (Nat × Operation)
  blocks : List (List Nat)
  uniquedConstants : List ((Attr × Ty) × Nat)
  nextId : Nat
deriving DecidableEq, Repr

/-- Look up an alive operation by id. -/
def lookupOp (s : FoldState) (opId : Nat) : Option Operation :=
  (s.ops.find? (fun p => p.1 == opId)).map (fun p => p.2)

/-- Replace the record of operation `opId` (in-place mutation of an
operation's fields, e.g. the operand swap). -/
def updateOp (s : FoldState) (opId : Nat) (newOp : Operation) : FoldState :=
  { s with ops := s.ops.map (fun p => if p.1 == opId then (opId, newOp) else p) }

/-- `uniquedConstants` lookup for a `(value, type)` key. -/
def cacheLookup (s : FoldState) (key : Attr × Ty) : Option Nat :=
  (s.uniquedConstants.find? (fun p => p.1 == key)).map (fun p => p.2)

/-- Bind `key` to `opId` in `uniquedConstants`. -/
def cacheInsert (s : FoldState) (key : Attr × Ty) (opId : Nat) : FoldState :=
  { s with uniquedConstants :=
      (key, opId) :: s.uniquedConstants.filter (fun p => p.1 != key) }

/-- Drop the `key` entry of `uniquedConstants`. -/
def cacheErase (s : FoldState) (key : Attr × Ty) : FoldState :=
  { s with uniquedConstants := s.uniquedConstants.filter (fun p => p.1 != key) }

/-- The constant matcher on a value (`matchPattern(v, m_Constant(&a))`):
succeeds iff the producing operation is alive and constant and `v` is
its (single) result. -/
def matchConstVal (s : FoldState) (v : Val) : Option Attr :=
  match lookupOp s v.producer with
  | some op => if op.isConstant && v.idx == 0 then some op.constValue else none
  | none => none

/-- The constant matcher on an operation
(`matchPattern(op, m_Constant(&a))`). -/
def matchConstOp (op : Operation) : Option Attr :=
  if op.isConstant then some op.constValue else none

/-- `op->getResult(0)->getType()`: the type of the operation's first
result. -/
def resultType0 (op : Operation) : Ty :=
  op.resultTypes.headD 0

/-- `op->use_empty()` for all results of `opId`: no alive operation has
an operand produced by `opId`. -/
def useEmpty (s : FoldState) (opId : Nat) : Bool :=
  s.ops.all (fun p => p.2.operands.all (fun v => v.producer != opId))

/-- Substitute `new` for `old` in one operand slot. -/
def replaceVal (old new v : Val) : Val :=
  if v == old then new else v

/-- `old->replaceAllUsesWith(new)`: rewire every operand slot holding
`old` to `new`. -/
def replaceAllUsesWith (s : FoldState) (old new : Val) : FoldState :=
  { s with ops := s.ops.map (fun p =>
      (p.1, { p.2 with operands := p.2.operands.map (replaceVal old new) })) }

/-- `op->erase()`: remove the operation from the alive map and from
every block. -/
def eraseOp (s : FoldState) (opId : Nat) : FoldState :=
  { s with ops := s.ops.filter (fun p => p.1 != opId),
           blocks := s.blocks.map (fun b => b.filter (fun i => i != opId)) }

/-- `OperationFolder::moveConstantToEntryBlock`: move the operation to
the very first position of the function's entry block
(`op->moveBefore(&entryBB, entryBB.begin())`). -/
def moveConstantToEntryBlock (s : FoldState) (opId : Nat) : FoldState :=
  let blocks := s.blocks.map (fun b => b.filter (fun i => i != opId))
  { s with blocks :=
      match blocks with
      | [] => [[opId]]
      | b :: rest => (opId :: b) :: rest }

/-- Insert a freshly built operation right before `anchor` in its block
(the `OpBuilder builder(op)` insertion point used when materializing
fold results). -/
def insertBeforeInBlock (b : List Nat) (anchor newId : Nat) : List Nat :=
  match b with
  | [] => []
  | x :: xs => if x == anchor then newId :: x :: xs else x :: insertBeforeInBlock xs anchor newId

/-- `builder.create<ConstantOp>(...)` with the builder positioned just
before `anchor`: register the fresh operation as alive and place it
before `anchor`. -/
def insertOpBefore (s : FoldState) (anchor newId : Nat) (newOp : Operation) : FoldState :=
  { s with ops := (newId, newOp) :: s.ops,
           blocks := s.blocks.map (fun b => insertBeforeInBlock b anchor newId),
           nextId := s.nextId + 1 }

/-- `OperationFolder::notifyRemoval`: if the operation matches as a
constant and the cache entry for its `(value, type)` key is exactly
this operation, drop that entry; otherwise do nothing. -/
def notifyRemoval (s : FoldState) (opId : Nat) : FoldState :=
  match lookupOp s opId with
  | none => s
  | some op =>
    match matchConstOp op with
    | none => s
    | some constValue =>
      let key : Attr × Ty := (constValue, resultType0 op)
      match cacheLookup s key with
      | some c => if c == opId then cacheErase s key else s
      | none => s

/-- `OperationFolder::tryToUnify`: deduplicate an alive constant
operation against the uniquing cache. Returns the new state and the
`LogicalResult` (`true` = success). -/
def tryToUnify (s : FoldState) (opId : Nat) : FoldState × Bool :=
  match lookupOp s opId with
  | none => (s, false)
  | some op =>
    match matchConstOp op with
    | none => (s, false)
    | some constValue =>
      let key : Attr × Ty := (constValue, resultType0 op)
      match cacheLookup s key with
      | some c =>
        if c == opId then (s, false)
        else
          let s1 := replaceAllUsesWith s ⟨opId, 0⟩ ⟨c, 0⟩
          (eraseOp s1 opId, true)
      | none =>
        let s1 := cacheInsert s key opId
        (moveConstantToEntryBlock s1 opId, false)

/-- The constant-or-absent operand array (`operandConstants`). -/
def computeOperandConstants (s : FoldState) (op : Operation) : List (Option Attr) :=
  op.operands.map (fun v => matchConstVal s v)

/-- The commutativity-normalization condition: exactly two operands,
the first constant, the second not, and the operation commutative. -/
def swapCondition (op : Operation) (oc : List (Option Attr)) : Bool :=
  match oc with
  | [some _, none] => op.commutative
  | _ => false

/-- Swap the first two entries of a list (`std::swap` on the two
operand slots / the two `operandConstants` entries). -/
def swapFirstTwo {α : Type} (l : List α) : List α :=
  match l with
  | a :: b :: rest => b :: a :: rest
  | _ => l

/-- The commutativity-normalization step (lines 95–101): when the
condition holds, swap the operation's two operand slots in place and
swap the two `operandConstants` entries; the second and third
components are the operation record and array subsequently handed to
the fold hook. -/
def applySwap (s : FoldState) (opId : Nat) (op : Operation) (oc : List (Option Attr)) :
    FoldState × Operation × List (Option Attr) :=
  if swapCondition op oc then
    let op1 := { op with operands := swapFirstTwo op.operands }
    (updateOp s opId op1, op1, swapFirstTwo oc)
  else
    (s, op, oc)

/-- Materialize one fold-hook outcome for a result of type `ty`
(loop body of `tryToFold(op, results)` lines 114–139): an SSA value is
taken verbatim; an attribute is resolved through the cache, creating,
registering and hoisting a fresh `ConstantOp` on a miss. -/
def materializeResult (s : FoldState) (anchor : Nat) (ty : Ty) (fr : FoldRes) :
    FoldState × Val :=
  match fr with
  | FoldRes.value v => (s, v)
  | FoldRes.attr a =>
    match cacheLookup s (a, ty) with
    | some c => (s, ⟨c, 0⟩)
    | none =>
      let newId := s.nextId
      let newOp : Operation :=
        { isConstant := true, constValue := a, commutative := false,
          operands := [], resultTypes := [ty] }
      let s1 := insertOpBefore s anchor newId newOp
      let s2 := cacheInsert s1 (a, ty) newId
      (moveConstantToEntryBlock s2 newId, ⟨newId, 0⟩)

/-- Materialize every fold-hook outcome in result order. -/
def materializeAll (s : FoldState) (anchor : Nat) (frs : List (FoldRes × Ty)) :
    FoldState × List Val :=
  match frs with
  | [] => (s, [])
  | (fr, ty) :: rest =>
    let p := materializeResult s anchor ty fr
    let q := materializeAll p.1 anchor rest
    (q.1, p.2 :: q.2)

/-- The private `OperationFolder::tryToFold(op, results)`: compute the
operand constants, apply commutativity normalization, invoke the fold
hook, and on success materialize the replacement values.  The state is
returned in every case because the operand swap persists even when the
hook fails. -/
def tryToFoldImpl (hook : FoldHook) (s : FoldState) (opId : Nat) :
    FoldState × Option (List Val) :=
  match lookupOp s opId with
  | none => (s, none)
  | some op =>
    let t := applySwap s opId op (computeOperandConstants s op)
    match hook t.2.1 t.2.2 with
    | none => (t.1, none)
    | some foldResults =>
      if foldResults.isEmpty then (t.1, some [])
      else
        let p := materializeAll t.1 opId (foldResults.zip t.2.1.resultTypes)
        (p.1, some p.2)

/-- Rewire, for `i = start, start+1, …`, every use of result `i` of
`opId` to the `i`-th replacement value (loop of lines 73–74). -/
def replaceResultsFrom (s : FoldState) (opId start : Nat) (results : List Val) : FoldState :=
  match results with
  | [] => s
  | r :: rest => replaceResultsFrom (replaceAllUsesWith s ⟨opId, start⟩ r) opId (start + 1) rest

/-- Outcome of the public `tryToFold`: the final state, the
`LogicalResult`, the internal replacement-results buffer, and whether
the `preReplaceAction` callback would have been invoked. -/
structure FoldOutcome where
  state : FoldState
  succeeded : Bool
  results : List Val
  callbackInvoked : Bool
deriving DecidableEq, Repr

/-- The public `OperationFolder::tryToFold(op, preReplaceAction)`:
constants are either erased when dead or unified; other operations go
through the folding path, with the callback invoked exactly when that
path succeeds, followed by use rewiring and erasure when the
replacement buffer is non-empty. -/
def tryToFold (hook : FoldHook) (s : FoldState) (opId : Nat) : FoldOutcome :=
  match lookupOp s opId with
  | none => ⟨s, false, [], false⟩
  | some op =>
    if op.isConstant then
      if useEmpty s opId then
        let s1 := notifyRemoval s opId
        ⟨eraseOp s1 opId, true, [], false⟩
      else
        let p := tryToUnify s opId
        ⟨p.1, p.2, [], false⟩
    else
      match tryToFoldImpl hook s opId with
      | (s1, none) => ⟨s1, false, [], false⟩
      | (s1, some results) =>
        if results.isEmpty then ⟨s1, true, results, true⟩
        else
          let s2 := replaceResultsFrom s1 opId 0 results
          ⟨eraseOp s2 opId, true, results, true⟩

/-- Insert `x` at position `pos` of a block. -/
def insertAtPos (b : List Nat) (pos x : Nat) : List Nat :=
  b.take pos ++ x :: b.drop pos

/-- Apply `f` to the `blk`-th block. -/
def setBlock (blocks : List (List Nat)) (blk : Nat) (f : List Nat → List Nat) :
    List (List Nat) :=
  match blocks, blk with
  | [], _ => []
  | b :: rest, 0 => f b :: rest
  | b :: rest, n + 1 => b :: setBlock rest n f

/-- `builder.create<OpTy>(...)` at an arbitrary insertion point
(block `blk`, position `pos`): allocate a fresh id for `newOp` and
place it there. -/
def insertOpAt (s : FoldState) (newOp : Operation) (blk pos : Nat) : FoldState :=
  { s with ops := (s.nextId, newOp) :: s.ops,
           blocks := setBlock s.blocks blk (fun b => insertAtPos b pos s.nextId),
           nextId := s.nextId + 1 }

/-- The generic `OperationFolder::create` helper (FoldUtils.h lines
69–77): build the operation, run the private fold; on fold failure the
results are the operation's own result values, on success the
operation is erased whenever it has at least one declared result. -/
def createAndFold (hook : FoldHook) (s : FoldState) (newOp : Operation) (blk pos : Nat) :
    FoldState × List Val :=
  let opId := s.nextId
  let s1 := insertOpAt s newOp blk pos
  match tryToFoldImpl hook s1 opId with
  | (s2, none) =>
    (s2, (List.range newOp.numResults).map (fun i => ⟨opId, i⟩))
  | (s2, some results) =>
    if newOp.numResults != 0 then (eraseOp s2 opId, results)
    else (s2, results)

/-! ### Association-list lemmas -/

section ListLemmas

variable {κ : Type} {α : Type} {β : Type} [BEq κ] [LawfulBEq κ] [DecidableEq κ]

theorem find_key_filter_out (l : List (κ × α)) (i j : κ) :
    (l.filter (fun p => p.1 != i)).find? (fun p => p.1 == j) =
      if j = i then none else l.find? (fun p => p.1 == j) := by
  induction l with
  | nil => by_cases h : j = i <;> simp [h]
  | cons hd tl ih =>
    by_cases h1 : hd.1 = i <;> by_cases h2 : hd.1 = j <;> by_cases h3 : j = i <;>
      simp_all [List.filter_cons, List.find?_cons]

theorem find_key_map_val (l : List (κ × α)) (f : κ × α → β) (j : κ) :
    ((l.map (fun p => (p.1, f p))).find? (fun p => p.1 == j)) =
      (l.find? (fun p => p.1 == j)).map (fun p => (p.1, f p)) := by
  induction l with
  | nil => rfl
  | cons hd tl ih =>
    by_cases h : hd.1 = j <;> simp [List.find?_cons, h, ih]

theorem find_key_update (l : List (κ × α)) (i : κ) (newv : α) (j : κ) :
    ((l.map (fun p => if p.1 == i then (i, newv) else p)).find? (fun p => p.1 == j)) =
      if j = i then (l.find? (fun p => p.1 == i)).map (fun _ => (i, newv))
      else l.find? (fun p => p.1 == j) := by
  induction l with
  | nil => by_cases h : j = i <;> simp [h]
  | cons hd tl ih =>
    by_cases h1 : hd.1 = i <;> by_cases h2 : hd.1 = j <;> by_cases h3 : j = i <;>
      simp_all [List.find?_cons]

theorem find_key_of_mem_nodup (l : List (κ × α)) (k : κ) (v : α)
    (hnd : (l.map (fun p => p.1)).Nodup) (hm : (k, v) ∈ l) :
    l.find? (fun p => p.1 == k) = some (k, v) := by
  induction l with
  | nil => cases hm
  | cons hd tl ih =>
    rcases List.mem_cons.mp hm with h | h
    · subst h; simp [List.find?_cons]
    · have hk : hd.1 ≠ k := by
        intro he
        have : k ∈ tl.map (fun p => p.1) := by
          exact List.mem_map.mpr ⟨(k, v), h, rfl⟩
        rw [List.map_cons, List.nodup_cons] at hnd
        exact hnd.1 (he ▸ this)
      have hb : (hd.1 == k) = false := by simpa using hk
      simp only [List.find?_cons, hb]
      exact ih (by rw [List.map_cons, List.nodup_cons] at hnd; exact hnd.2) h

end ListLemmas

/-! ### Frame lemmas for the state primitives -/

theorem ops_eraseOp (s : FoldState) (i : Nat) :
    (eraseOp s i).ops = s.ops.filter (fun p => p.1 != i) := rfl

theorem blocks_eraseOp (s : FoldState) (i : Nat) :
    (eraseOp s i).blocks = s.blocks.map (fun b => b.filter (fun x => x != i)) := rfl

theorem nextId_eraseOp (s : FoldState) (i : Nat) :
    (eraseOp s i).nextId = s.nextId := rfl

theorem ops_updateOp (s : FoldState) (i : Nat) (newOp : Operation) :
    (updateOp s i newOp).ops =
      s.ops.map (fun p => if p.1 == i then (i, newOp) else p) := rfl

theorem blocks_updateOp (s : FoldState) (i : Nat) (newOp : Operation) :
    (updateOp s i newOp).blocks = s.blocks := rfl

theorem nextId_updateOp (s : FoldState) (i : Nat) (newOp : Operation) :
    (updateOp s i newOp).nextId = s.nextId := rfl

theorem ops_replaceAllUsesWith (s : FoldState) (old new : Val) :
    (replaceAllUsesWith s old new).ops =
      s.ops.map (fun p =>
        (p.1, { p.2 with operands := p.2.operands.map (replaceVal old new) })) := rfl

theorem blocks_replaceAllUsesWith (s : FoldState) (old new : Val) :
    (replaceAllUsesWith s old new).blocks = s.blocks := rfl

theorem nextId_replaceAllUsesWith (s : FoldState) (old new : Val) :
    (replaceAllUsesWith s old new).nextId = s.nextId := rfl

theorem cacheList_cacheInsert (s : FoldState) (key : Attr × Ty) (i : Nat) :
    (cacheInsert s key i).uniquedConstants =
      (key, i) :: s.uniquedConstants.filter (fun p => p.1 != key) := rfl

theorem cacheList_cacheErase (s : FoldState) (key : Attr × Ty) :
    (cacheErase s key).uniquedConstants =
      s.uniquedConstants.filter (fun p => p.1 != key) := rfl

theorem blocks_cacheInsert (s : FoldState) (key : Attr × Ty) (i : Nat) :
    (cacheInsert s key i).blocks = s.blocks := rfl

theorem blocks_cacheErase (s : FoldState) (key : Attr × Ty) :
    (cacheErase s key).blocks = s.blocks := rfl

theorem ops_insertOpBefore (s : FoldState) (anchor newId : Nat) (newOp : Operation) :
    (insertOpBefore s anchor newId newOp).ops = (newId, newOp) :: s.ops := rfl

theorem blocks_insertOpBefore (s : FoldState) (anchor newId : Nat) (newOp : Operation) :
    (insertOpBefore s anchor newId newOp).blocks =
      s.blocks.map (fun b => insertBeforeInBlock b anchor newId) := rfl

theorem nextId_insertOpBefore (s : FoldState) (anchor newId : Nat) (newOp : Operation) :
    (insertOpBefore s anchor newId newOp).nextId = s.nextId + 1 := rfl

theorem cache_insertOpBefore (s : FoldState) (anchor newId : Nat) (newOp : Operation) :
    (insertOpBefore s anchor newId newOp).uniquedConstants = s.uniquedConstants := rfl

theorem ops_moveConstant (s : FoldState) (i : Nat) :
    (moveConstantToEntryBlock s i).ops = s.ops := rfl

theorem cache_moveConstant (s : FoldState) (i : Nat) :
    (moveConstantToEntryBlock s i).uniquedConstants = s.uniquedConstants := rfl

theorem nextId_moveConstant (s : FoldState) (i : Nat) :
    (moveConstantToEntryBlock s i).nextId = s.nextId := rfl

theorem lookupOp_cacheInsert (s : FoldState) (key : Attr × Ty) (i j : Nat) :
    lookupOp (cacheInsert s key i) j = lookupOp s j := rfl

theorem lookupOp_cacheErase (s : FoldState) (key : Attr × Ty) (j : Nat) :
    lookupOp (cacheErase s key) j = lookupOp s j := rfl

theorem cacheLookup_eraseOp (s : FoldState) (i : Nat) (key : Attr × Ty) :
    cacheLookup (eraseOp s i) key = cacheLookup s key := rfl

theorem cacheLookup_updateOp (s : FoldState) (i : Nat) (newOp : Operation) (key : Attr × Ty) :
    cacheLookup (updateOp s i newOp) key = cacheLookup s key := rfl

theorem cacheLookup_replaceAllUsesWith (s : FoldState) (old new : Val) (key : Attr × Ty) :
    cacheLookup (replaceAllUsesWith s old new) key = cacheLookup s key := rfl

theorem cacheLookup_moveConstant (s : FoldState) (i : Nat) (key : Attr × Ty) :
    cacheLookup (moveConstantToEntryBlock s i) key = cacheLookup s key := rfl

theorem lookupOp_eraseOp (s : FoldState) (i j : Nat) :
    lookupOp (eraseOp s i) j = if j = i then none else lookupOp s j := by
  unfold lookupOp
  rw [ops_eraseOp, find_key_filter_out]
  by_cases h : j = i <;> simp [h]

theorem lookupOp_updateOp (s : FoldState) (i : Nat) (newOp : Operation) (j : Nat) :
    lookupOp (updateOp s i newOp) j =
      if j = i then (lookupOp s i).map (fun _ => newOp) else lookupOp s j := by
  unfold lookupOp
  rw [ops_updateOp, find_key_update]
  by_cases h : j = i
  · rw [if_pos h, if_pos h]
    cases s.ops.find? (fun p => p.1 == i) <;> rfl
  · rw [if_neg h, if_neg h]

theorem lookupOp_replaceAllUsesWith (s : FoldState) (old new : Val) (j : Nat) :
    lookupOp (replaceAllUsesWith s old new) j =
      (lookupOp s j).map
        (fun op => { op with operands := op.operands.map (replaceVal old new) }) := by
  unfold lookupOp
  rw [ops_replaceAllUsesWith, find_key_map_val]
  cases s.ops.find? (fun p => p.1 == j) <;> rfl

theorem cacheLookup_cacheInsert (s : FoldState) (key key' : Attr × Ty) (i : Nat) :
    cacheLookup (cacheInsert s key i) key' =
      if key' = key then some i else cacheLookup s key' := by
  unfold cacheLookup
  rw [cacheList_cacheInsert]
  by_cases h : key' = key
  · subst h; simp [List.find?_cons]
  · have hb : (key == key') = false := by
      simpa using fun e => h e.symm
    simp only [List.find?_cons, hb]
    rw [find_key_filter_out, if_neg h, if_neg h]

theorem cacheLookup_cacheErase (s : FoldState) (key key' : Attr × Ty) :
    cacheLookup (cacheErase s key) key' =
      if key' = key then none else cacheLookup s key' := by
  unfold cacheLookup
  rw [cacheList_cacheErase, find_key_filter_out]
  by_cases h : key' = key <;> simp [h]

theorem lookupOp_insertOpBefore (s : FoldState) (anchor newId : Nat) (newOp : Operation)
    (j : Nat) :
    lookupOp (insertOpBefore s anchor newId newOp) j =
      if j = newId then some newOp else lookupOp s j := by
  unfold lookupOp
  rw [ops_insertOpBefore]
  by_cases h : j = newId
  · subst h; simp [List.find?_cons]
  · have hb : (newId == j) = false := by
      simpa using fun e => h e.symm
    simp only [List.find?_cons, hb]
    rw [if_neg h]

/-! ### notifyRemoval: shape of its outcomes -/

theorem notifyRemoval_eq_or (s : FoldState) (opId : Nat) :
    notifyRemoval s opId = s ∨ ∃ key, notifyRemoval s opId = cacheErase s key := by
  cases hl : lookupOp s opId with
  | none => left; simp [notifyRemoval, hl]
  | some op =>
    cases hm : matchConstOp op with
    | none => left; simp [notifyRemoval, hl, hm]
    | some cv =>
      cases hcl : cacheLookup s (cv, resultType0 op) with
      | none => left; simp [notifyRemoval, hl, hm, hcl]
      | some c =>
        by_cases h : c = opId
        · right
          exact ⟨(cv, resultType0 op), by simp [notifyRemoval, hl, hm, hcl, h]⟩
        · left; simp [notifyRemoval, hl, hm, hcl, h]

/-- C10: `notifyRemoval` never mutates the IR graph: it leaves the map
of alive operations (hence every operation's operands, results and
uses), the block structure (hence every position) and the id allocator
unchanged — only the `uniquedConstants` cache can change. -/
theorem notifyRemoval_graph_frame (s : FoldState) (opId : Nat) :
    (notifyRemoval s opId).ops = s.ops ∧
    (notifyRemoval s opId).blocks = s.blocks ∧
    (notifyRemoval s opId).nextId = s.nextId := by
  rcases notifyRemoval_eq_or s opId with h | ⟨key, h⟩ <;> rw [h] <;>
    exact ⟨rfl, rfl, rfl⟩

/-- C6: `notifyRemoval` leaves the cache unchanged when the operation
is not recognized as a constant; otherwise the entry for the
operation's `(value, type)` key is removed exactly when that entry is
this operation, and nothing at all changes when the entry refers to a
different operation or is absent. -/
theorem notifyRemoval_cache_spec (s : FoldState) (opId : Nat) (op : Operation)
    (halive : lookupOp s opId = some op) :
    (op.isConstant = false → notifyRemoval s opId = s) ∧
    (op.isConstant = true →
      (cacheLookup s (op.constValue, resultType0 op) = some opId →
        (notifyRemoval s opId).uniquedConstants =
          s.uniquedConstants.filter
            (fun p => p.1 != (op.constValue, resultType0 op)) ∧
        cacheLookup (notifyRemoval s opId)
          (op.constValue, resultType0 op) = none) ∧
      (cacheLookup s (op.constValue, resultType0 op) ≠ some opId →
        notifyRemoval s opId = s)) := by
  constructor
  · intro hnc
    simp [notifyRemoval, halive, matchConstOp, hnc]
  · intro hc
    constructor
    · intro h
      have hrm : notifyRemoval s opId =
          cacheErase s (op.constValue, resultType0 op) := by
        simp [notifyRemoval, halive, matchConstOp, hc, h]
      rw [hrm]
      exact ⟨rfl, by rw [cacheLookup_cacheErase, if_pos rfl]⟩
    · intro h
      cases hcl : cacheLookup s (op.constValue, resultType0 op) with
      | none => simp [notifyRemoval, halive, matchConstOp, hc, hcl]
      | some c =>
        have hne : c ≠ opId := fun e => h (e ▸ hcl)
        simp [notifyRemoval, halive, matchConstOp, hc, hcl, hne]

def w6Op : Operation :=
  { isConstant := true, constValue := 7, commutative := false,
    operands := [], resultTypes := [0] }

def w6State : FoldState :=
  { ops := [(0, w6Op)], blocks := [[0]],
    uniquedConstants := [((7, 0), 0)], nextId := 1 }

/-- Witness for C6 at a concrete one-constant state whose cache entry
is canonical for that constant. -/
theorem notifyRemoval_cache_spec_witness :
    lookupOp w6State 0 = some w6Op ∧
    ((w6Op.isConstant = false → notifyRemoval w6State 0 = w6State) ∧
     (w6Op.isConstant = true →
       (cacheLookup w6State (w6Op.constValue, resultType0 w6Op) = some 0 →
         (notifyRemoval w6State 0).uniquedConstants =
           w6State.uniquedConstants.filter
             (fun p => p.1 != (w6Op.constValue, resultType0 w6Op)) ∧
         cacheLookup (notifyRemoval w6State 0)
           (w6Op.constValue, resultType0 w6Op) = none) ∧
       (cacheLookup w6State (w6Op.constValue, resultType0 w6Op) ≠ some 0 →
         notifyRemoval w6State 0 = w6State))) :=
  ⟨by decide, notifyRemoval_cache_spec w6State 0 w6Op (by decide)⟩

/-- C5: on a dead constant operation, `tryToFold` erases it, reports
success, never invokes the pre-replacement callback, clears the cache
entry when the operation was the canonical entry for its key, and
otherwise leaves the cache unchanged. -/
theorem tryToFold_dead_constant (hook : FoldHook) (s : FoldState) (opId : Nat)
    (op : Operation)
    (halive : lookupOp s opId = some op) (hconst : op.isConstant = true)
    (hdead : useEmpty s opId = true) :
    (tryToFold hook s opId).succeeded = true ∧
    (tryToFold hook s opId).callbackInvoked = false ∧
    lookupOp (tryToFold hook s opId).state opId = none ∧
    (cacheLookup s (op.constValue, resultType0 op) = some opId →
      cacheLookup (tryToFold hook s opId).state
        (op.constValue, resultType0 op) = none) ∧
    (cacheLookup s (op.constValue, resultType0 op) ≠ some opId →
      (tryToFold hook s opId).state.uniquedConstants = s.uniquedConstants) := by
  have hout : tryToFold hook s opId =
      ⟨eraseOp (notifyRemoval s opId) opId, true, [], false⟩ := by
    simp [tryToFold, halive, hconst, hdead]
  rw [hout]
  refine ⟨rfl, rfl, ?_, ?_, ?_⟩
  · rw [lookupOp_eraseOp]; simp
  · intro h
    rw [cacheLookup_eraseOp]
    have hrm : notifyRemoval s opId =
        cacheErase s (op.constValue, resultType0 op) := by
      simp [notifyRemoval, halive, matchConstOp, hconst, h]
    rw [hrm, cacheLookup_cacheErase, if_pos rfl]
  · intro h
    have hrm : notifyRemoval s opId = s := by
      cases hcl : cacheLookup s (op.constValue, resultType0 op) with
      | none => simp [notifyRemoval, halive, matchConstOp, hconst, hcl]
      | some c =>
        have hne : c ≠ opId := fun e => h (e ▸ hcl)
        simp [notifyRemoval, halive, matchConstOp, hconst, hcl, hne]
    show (notifyRemoval s opId).uniquedConstants = s.uniquedConstants
    rw [hrm]

def w5State : FoldState :=
  { ops := [(0, w6Op)], blocks := [[0]],
    uniquedConstants := [((7, 0), 0)], nextId := 1 }

def w5Hook : FoldHook := fun _ _ => none

/-- Witness for C5 at a concrete dead canonical constant. -/
theorem tryToFold_dead_constant_witness :
    lookupOp w5State 0 = some w6Op ∧ w6Op.isConstant = true ∧
    useEmpty w5State 0 = true ∧
    ((tryToFold w5Hook w5State 0).succeeded = true ∧
     (tryToFold w5Hook w5State 0).callbackInvoked = false ∧
     lookupOp (tryToFold w5Hook w5State 0).state 0 = none ∧
     (cacheLookup w5State (w6Op.constValue, resultType0 w6Op) = some 0 →
       cacheLookup (tryToFold w5Hook w5State 0).state
         (w6Op.constValue, resultType0 w6Op) = none) ∧
     (cacheLookup w5State (w6Op.constValue, resultType0 w6Op) ≠ some 0 →
       (tryToFold w5Hook w5State 0).state.uniquedConstants =
         w5State.uniquedConstants)) :=
  ⟨by decide, by decide, by decide,
   tryToFold_dead_constant w5Hook w5State 0 w6Op (by decide) (by decide) (by decide)⟩

/-! ### Commutativity normalization (C7) -/

/-- C7: for a two-operand operation, the engine swaps the operand slots
and the constant-or-absent entries before handing them to the fold hook
exactly when the operation is commutative with a constant first operand
and a non-constant second operand; in every other operand-constancy
configuration nothing is swapped. -/
theorem commutative_swap_spec (s : FoldState) (opId : Nat) (op : Operation) (a b : Val)
    (halive : lookupOp s opId = some op) (hops : op.operands = [a, b]) :
    ((∃ ca, matchConstVal s a = some ca) ∧ matchConstVal s b = none ∧
        op.commutative = true →
      applySwap s opId op (computeOperandConstants s op) =
        (updateOp s opId { op with operands := [b, a] },
         { op with operands := [b, a] },
         [matchConstVal s b, matchConstVal s a])) ∧
    (¬ ((∃ ca, matchConstVal s a = some ca) ∧ matchConstVal s b = none ∧
        op.commutative = true) →
      applySwap s opId op (computeOperandConstants s op) =
        (s, op, computeOperandConstants s op)) := by
  have hoc : computeOperandConstants s op = [matchConstVal s a, matchConstVal s b] := by
    simp [computeOperandConstants, hops]
  constructor
  · rintro ⟨⟨ca, hca⟩, hcb, hcomm⟩
    have hsw : swapCondition op (computeOperandConstants s op) = true := by
      rw [hoc, hca, hcb]; simpa [swapCondition] using hcomm
    have happ : applySwap s opId op (computeOperandConstants s op) =
        (updateOp s opId { op with operands := swapFirstTwo op.operands },
         { op with operands := swapFirstTwo op.operands },
         swapFirstTwo (computeOperandConstants s op)) := by
      unfold applySwap; rw [if_pos hsw]
    rw [happ, hoc, hops]
    simp [swapFirstTwo]
  · intro hneg
    have hsw : swapCondition op (computeOperandConstants s op) = false := by
      rw [hoc]
      cases hca : matchConstVal s a with
      | none => simp [swapCondition]
      | some ca =>
        cases hcb : matchConstVal s b with
        | some cb => simp [swapCondition]
        | none =>
          cases hcomm : op.commutative with
          | true => exact absurd ⟨⟨ca, hca⟩, hcb, hcomm⟩ hneg
          | false => simpa [swapCondition] using hcomm
    simp [applySwap, hsw]

def w7Const : Operation :=
  { isConstant := true, constValue := 5, commutative := false,
    operands := [], resultTypes := [0] }

def w7NonConst : Operation :=
  { isConstant := false, constValue := 0, commutative := false,
    operands := [], resultTypes := [0] }

def w7Add : Operation :=
  { isConstant := false, constValue := 0, commutative := true,
    operands := [⟨0, 0⟩, ⟨1, 0⟩], resultTypes := [0] }

def w7State : FoldState :=
  { ops := [(0, w7Const), (1, w7NonConst), (2, w7Add)],
    blocks := [[0, 1, 2]], uniquedConstants := [], nextId := 3 }

/-- Witness for C7 at a commutative add whose first operand is the
constant `5` and whose second operand is non-constant. -/
theorem commutative_swap_spec_witness :
    lookupOp w7State 2 = some w7Add ∧ w7Add.operands = [⟨0, 0⟩, ⟨1, 0⟩] ∧
    (((∃ ca, matchConstVal w7State ⟨0, 0⟩ = some ca) ∧
        matchConstVal w7State ⟨1, 0⟩ = none ∧ w7Add.commutative = true →
      applySwap w7State 2 w7Add (computeOperandConstants w7State w7Add) =
        (updateOp w7State 2 { w7Add with operands := [⟨1, 0⟩, ⟨0, 0⟩] },
         { w7Add with operands := [⟨1, 0⟩, ⟨0, 0⟩] },
         [matchConstVal w7State ⟨1, 0⟩, matchConstVal w7State ⟨0, 0⟩])) ∧
     (¬ ((∃ ca, matchConstVal w7State ⟨0, 0⟩ = some ca) ∧
        matchConstVal w7State ⟨1, 0⟩ = none ∧ w7Add.commutative = true) →
      applySwap w7State 2 w7Add (computeOperandConstants w7State w7Add) =
        (w7State, w7Add, computeOperandConstants w7State w7Add))) :=
  ⟨by decide, by decide,
   commutative_swap_spec w7State 2 w7Add ⟨0, 0⟩ ⟨1, 0⟩ (by decide) (by decide)⟩

/-! ### The three-way unification split (C3) -/

theorem moveConstant_head (s : FoldState) (i : Nat) :
    ((moveConstantToEntryBlock s i).blocks.headD []).head? = some i := by
  simp only [moveConstantToEntryBlock]
  cases s.blocks.map (fun b => b.filter (fun x => x != i)) with
  | nil => rfl
  | cons b rest => rfl

/-- C3: for an alive constant operation with at least one use,
`tryToUnify` is a three-way case split on the cache entry of the
operation's `(value, type)` key: absent entry — register this
operation, hoist it to the front of the entry block, report failure;
entry is this very operation — change nothing and report failure;
entry is a different operation — rewire all uses of this operation's
result to the canonical result, erase this operation, report
success. -/
theorem tryToUnify_three_way (s : FoldState) (opId : Nat) (op : Operation)
    (halive : lookupOp s opId = some op) (hconst : op.isConstant = true)
    (huses : useEmpty s opId = false) :
    (cacheLookup s (op.constValue, resultType0 op) = none →
      tryToUnify s opId =
        (moveConstantToEntryBlock
          (cacheInsert s (op.constValue, resultType0 op) opId) opId, false) ∧
      cacheLookup (tryToUnify s opId).1 (op.constValue, resultType0 op) = some opId ∧
      ((tryToUnify s opId).1.blocks.headD []).head? = some opId ∧
      lookupOp (tryToUnify s opId).1 opId = some op) ∧
    (cacheLookup s (op.constValue, resultType0 op) = some opId →
      tryToUnify s opId = (s, false)) ∧
    (∀ c, cacheLookup s (op.constValue, resultType0 op) = some c → c ≠ opId →
      (tryToUnify s opId).2 = true ∧
      lookupOp (tryToUnify s opId).1 opId = none ∧
      (∀ u opu, u ≠ opId → lookupOp s u = some opu →
        lookupOp (tryToUnify s opId).1 u =
          some { opu with operands :=
            opu.operands.map (replaceVal ⟨opId, 0⟩ ⟨c, 0⟩) })) := by
  refine ⟨?_, ?_, ?_⟩
  · intro hmiss
    have he : tryToUnify s opId =
        (moveConstantToEntryBlock
          (cacheInsert s (op.constValue, resultType0 op) opId) opId, false) := by
      simp [tryToUnify, halive, matchConstOp, hconst, hmiss]
    refine ⟨he, ?_, ?_, ?_⟩
    · rw [he]
      show cacheLookup (moveConstantToEntryBlock _ _) _ = _
      rw [cacheLookup_moveConstant, cacheLookup_cacheInsert, if_pos rfl]
    · rw [he]; exact moveConstant_head _ _
    · rw [he]
      show lookupOp (moveConstantToEntryBlock _ _) _ = _
      have : lookupOp (moveConstantToEntryBlock
          (cacheInsert s (op.constValue, resultType0 op) opId) opId) opId =
          lookupOp (cacheInsert s (op.constValue, resultType0 op) opId) opId := rfl
      rw [this, lookupOp_cacheInsert, halive]
  · intro hself
    simp [tryToUnify, halive, matchConstOp, hconst, hself]
  · intro c hhit hne
    have hne' : (c == opId) = false := by simpa using hne
    have he : tryToUnify s opId =
        (eraseOp (replaceAllUsesWith s ⟨opId, 0⟩ ⟨c, 0⟩) opId, true) := by
      simp [tryToUnify, halive, matchConstOp, hconst, hhit, hne']
    refine ⟨by rw [he], ?_, ?_⟩
    · rw [he]
      show lookupOp (eraseOp _ _) _ = _
      rw [lookupOp_eraseOp, if_pos rfl]
    · intro u opu hu halu
      rw [he]
      show lookupOp (eraseOp _ _) _ = _
      rw [lookupOp_eraseOp, if_neg hu, lookupOp_replaceAllUsesWith, halu]
      rfl

def w3Const : Operation :=
  { isConstant := true, constValue := 5, commutative := false,
    operands := [], resultTypes := [0] }

def w3User : Operation :=
  { isConstant := false, constValue := 0, commutative := false,
    operands := [⟨0, 0⟩], resultTypes := [0] }

def w3State : FoldState :=
  { ops := [(0, w3Const), (1, w3User)], blocks := [[0, 1]],
    uniquedConstants := [], nextId := 2 }

/-- Witness for C3 at a used constant with an empty cache (the no-entry
branch is exercised; the other two branches hold vacuously or via the
theorem). -/
theorem tryToUnify_three_way_witness :
    lookupOp w3State 0 = some w3Const ∧ w3Const.isConstant = true ∧
    useEmpty w3State 0 = false ∧
    ((cacheLookup w3State (w3Const.constValue, resultType0 w3Const) = none →
      tryToUnify w3State 0 =
        (moveConstantToEntryBlock
          (cacheInsert w3State (w3Const.constValue, resultType0 w3Const) 0) 0, false) ∧
      cacheLookup (tryToUnify w3State 0).1
        (w3Const.constValue, resultType0 w3Const) = some 0 ∧
      ((tryToUnify w3State 0).1.blocks.headD []).head? = some 0 ∧
      lookupOp (tryToUnify w3State 0).1 0 = some w3Const) ∧
    (cacheLookup w3State (w3Const.constValue, resultType0 w3Const) = some 0 →
      tryToUnify w3State 0 = (w3State, false)) ∧
    (∀ c, cacheLookup w3State (w3Const.constValue, resultType0 w3Const) = some c →
      c ≠ 0 →
      (tryToUnify w3State 0).2 = true ∧
      lookupOp (tryToUnify w3State 0).1 0 = none ∧
      (∀ u opu, u ≠ 0 → lookupOp w3State u = some opu →
        lookupOp (tryToUnify w3State 0).1 u =
          some { opu with operands :=
            opu.operands.map (replaceVal ⟨0, 0⟩ ⟨c, 0⟩) }))) :=
  ⟨by decide, by decide, by decide,
   tryToUnify_three_way w3State 0 w3Const (by decide) (by decide) (by decide)⟩

/-! ### Idempotence of uniquing (C8) -/

/-- C8: uniquing the same constant `(value, type)` pair twice never
leaves two live canonical operations: after the first constant is
registered, running the unification path on a second constant with the
same pair rewires its uses to the first and erases it, and a fold
outcome naming the same pair resolves to the registered operation
without creating anything. -/
theorem unify_idempotent (s : FoldState) (op1 op2 : Nat) (o1 o2 : Operation)
    (a : Attr) (t : Ty)
    (h1 : lookupOp s op1 = some o1) (h2 : lookupOp s op2 = some o2) (hne : op1 ≠ op2)
    (hc1 : o1.isConstant = true) (hv1 : o1.constValue = a) (ht1 : o1.resultTypes = [t])
    (hc2 : o2.isConstant = true) (hv2 : o2.constValue = a) (ht2 : o2.resultTypes = [t])
    (hmiss : cacheLookup s (a, t) = none) :
    (tryToUnify s op1).2 = false ∧
    (tryToUnify (tryToUnify s op1).1 op2).2 = true ∧
    cacheLookup (tryToUnify (tryToUnify s op1).1 op2).1 (a, t) = some op1 ∧
    (lookupOp (tryToUnify (tryToUnify s op1).1 op2).1 op1).isSome = true ∧
    lookupOp (tryToUnify (tryToUnify s op1).1 op2).1 op2 = none ∧
    (∀ u opu, u ≠ op2 → lookupOp (tryToUnify s op1).1 u = some opu →
      lookupOp (tryToUnify (tryToUnify s op1).1 op2).1 u =
        some { opu with operands :=
          opu.operands.map (replaceVal ⟨op2, 0⟩ ⟨op1, 0⟩) }) ∧
    (∀ anchor,
      materializeResult (tryToUnify (tryToUnify s op1).1 op2).1 anchor t
          (FoldRes.attr a) =
        ((tryToUnify (tryToUnify s op1).1 op2).1, ⟨op1, 0⟩)) := by
  have he1 : tryToUnify s op1 =
      (moveConstantToEntryBlock (cacheInsert s (a, t) op1) op1, false) := by
    simp [tryToUnify, h1, matchConstOp, hc1, hv1, resultType0, ht1, hmiss]
  have hl2 : lookupOp (tryToUnify s op1).1 op2 = some o2 := by
    rw [he1]
    show lookupOp (moveConstantToEntryBlock _ _) _ = _
    have : lookupOp (moveConstantToEntryBlock (cacheInsert s (a, t) op1) op1) op2 =
        lookupOp (cacheInsert s (a, t) op1) op2 := rfl
    rw [this, lookupOp_cacheInsert, h2]
  have hcl2 : cacheLookup (tryToUnify s op1).1 (a, t) = some op1 := by
    rw [he1]
    show cacheLookup (moveConstantToEntryBlock _ _) _ = _
    rw [cacheLookup_moveConstant, cacheLookup_cacheInsert, if_pos rfl]
  have hne2 : (op1 == op2) = false := by simpa using hne
  have hl2' : lookupOp (moveConstantToEntryBlock (cacheInsert s (a, t) op1) op1) op2 =
      some o2 := by
    have h' : lookupOp (moveConstantToEntryBlock (cacheInsert s (a, t) op1) op1) op2 =
        lookupOp (cacheInsert s (a, t) op1) op2 := rfl
    rw [h', lookupOp_cacheInsert, h2]
  have hcl2' : cacheLookup (moveConstantToEntryBlock (cacheInsert s (a, t) op1) op1)
      (a, t) = some op1 := by
    rw [cacheLookup_moveConstant, cacheLookup_cacheInsert, if_pos rfl]
  have he2 : tryToUnify (tryToUnify s op1).1 op2 =
      (eraseOp (replaceAllUsesWith (tryToUnify s op1).1 ⟨op2, 0⟩ ⟨op1, 0⟩) op2,
       true) := by
    rw [he1]
    simp [tryToUnify, hl2', matchConstOp, hc2, hv2, resultType0, ht2, hcl2', hne2]
  refine ⟨by rw [he1], by rw [he2], ?_, ?_, ?_, ?_, ?_⟩
  · rw [he2]
    show cacheLookup (eraseOp _ _) _ = _
    rw [cacheLookup_eraseOp, cacheLookup_replaceAllUsesWith, hcl2]
  · rw [he2]
    show (lookupOp (eraseOp _ _) _).isSome = true
    rw [lookupOp_eraseOp, if_neg hne, lookupOp_replaceAllUsesWith]
    have : lookupOp (tryToUnify s op1).1 op1 = some o1 := by
      rw [he1]
      show lookupOp (moveConstantToEntryBlock _ _) _ = _
      have h' : lookupOp (moveConstantToEntryBlock (cacheInsert s (a, t) op1) op1) op1 =
          lookupOp (cacheInsert s (a, t) op1) op1 := rfl
      rw [h', lookupOp_cacheInsert, h1]
    rw [this]
    rfl
  · rw [he2]
    show lookupOp (eraseOp _ _) _ = _
    rw [lookupOp_eraseOp, if_pos rfl]
  · intro u opu hu halu
    rw [he2]
    show lookupOp (eraseOp _ _) _ = _
    rw [lookupOp_eraseOp, if_neg hu, lookupOp_replaceAllUsesWith, halu]
    rfl
  · intro anchor
    have hcl3 : cacheLookup (tryToUnify (tryToUnify s op1).1 op2).1 (a, t) =
        some op1 := by
      rw [he2]
      show cacheLookup (eraseOp _ _) _ = _
      rw [cacheLookup_eraseOp, cacheLookup_replaceAllUsesWith, hcl2]
    simp [materializeResult, hcl3]

def w8ConstB : Operation :=
  { isConstant := true, constValue := 5, commutative := false,
    operands := [], resultTypes := [0] }

def w8User : Operation :=
  { isConstant := false, constValue := 0, commutative := false,
    operands := [⟨1, 0⟩], resultTypes := [0] }

def w8State : FoldState :=
  { ops := [(0, w8ConstB), (1, w8ConstB), (2, w8User)],
    blocks := [[0, 1, 2]], uniquedConstants := [], nextId := 3 }

/-- Witness for C8 at two duplicate constants `5 : ty0`, the second one
used by a third operation. -/
theorem unify_idempotent_witness :
    lookupOp w8State 0 = some w8ConstB ∧ lookupOp w8State 1 = some w8ConstB ∧
    (0 : Nat) ≠ 1 ∧ cacheLookup w8State (5, 0) = none ∧
    ((tryToUnify w8State 0).2 = false ∧
     (tryToUnify (tryToUnify w8State 0).1 1).2 = true ∧
     cacheLookup (tryToUnify (tryToUnify w8State 0).1 1).1 (5, 0) = some 0 ∧
     (lookupOp (tryToUnify (tryToUnify w8State 0).1 1).1 0).isSome = true ∧
     lookupOp (tryToUnify (tryToUnify w8State 0).1 1).1 1 = none ∧
     (∀ u opu, u ≠ 1 → lookupOp (tryToUnify w8State 0).1 u = some opu →
       lookupOp (tryToUnify (tryToUnify w8State 0).1 1).1 u =
         some { opu with operands :=
           opu.operands.map (replaceVal ⟨1, 0⟩ ⟨0, 0⟩) }) ∧
     (∀ anchor,
       materializeResult (tryToUnify (tryToUnify w8State 0).1 1).1 anchor 0
           (FoldRes.attr 5) =
         ((tryToUnify (tryToUnify w8State 0).1 1).1, ⟨0, 0⟩))) :=
  ⟨by decide, by decide, by decide, by decide,
   unify_idempotent w8State 0 1 w8ConstB w8ConstB 5 0 (by decide) (by decide)
     (by decide) (by decide) (by decide) (by decide) (by decide) (by decide)
     (by decide) (by decide)⟩

/-! ### Failure paths of tryToFold (C1) -/

def c1Hook : FoldHook := fun _ _ => none

def c1State : FoldState :=
  { ops := [(0, w7Const), (1, w7NonConst), (2, w7Add)],
    blocks := [[0, 1, 2]], uniquedConstants := [], nextId := 3 }

/-- C1 counterexample: on a commutative two-operand operation whose
first operand is constant and second is not, with a fold hook that
declines, `tryToFold` reports failure yet the graph is *not* left
untouched — the operation's operands have been swapped in place. -/
theorem tryToFold_failure_not_untouched :
    (tryToFold c1Hook c1State 2).succeeded = false ∧
    (tryToFold c1Hook c1State 2).state ≠ c1State ∧
    (lookupOp c1State 2).map Operation.operands = some [⟨0, 0⟩, ⟨1, 0⟩] ∧
    (lookupOp (tryToFold c1Hook c1State 2).state 2).map Operation.operands =
      some [⟨1, 0⟩, ⟨0, 0⟩] := by decide

/-- C1 (amended): when `tryToFold` reports failure on a non-constant
operation, nothing is created, erased or rewired, the cache, block
structure and id allocator are unchanged, and every other operation is
untouched; the operation itself is also untouched *except* that in the
commutativity-normalization configuration its two operands remain
swapped. -/
theorem tryToFold_failure_frame (hook : FoldHook) (s : FoldState) (opId : Nat)
    (op : Operation)
    (halive : lookupOp s opId = some op) (hnc : op.isConstant = false)
    (hfail : (tryToFold hook s opId).succeeded = false) :
    (tryToFold hook s opId).state.blocks = s.blocks ∧
    (tryToFold hook s opId).state.uniquedConstants = s.uniquedConstants ∧
    (tryToFold hook s opId).state.nextId = s.nextId ∧
    (∀ u, u ≠ opId → lookupOp (tryToFold hook s opId).state u = lookupOp s u) ∧
    lookupOp (tryToFold hook s opId).state opId =
      some (if swapCondition op (computeOperandConstants s op)
            then { op with operands := swapFirstTwo op.operands } else op) := by
  have hstep : tryToFold hook s opId =
      ⟨(applySwap s opId op (computeOperandConstants s op)).1, false, [], false⟩ := by
    cases hh : hook (applySwap s opId op (computeOperandConstants s op)).2.1
        (applySwap s opId op (computeOperandConstants s op)).2.2 with
    | none =>
      simp [tryToFold, tryToFoldImpl, halive, hnc, hh]
    | some frs =>
      exfalso
      by_cases hemp : frs.isEmpty
      · have : (tryToFold hook s opId).succeeded = true := by
          simp [tryToFold, tryToFoldImpl, halive, hnc, hh, hemp]
        rw [this] at hfail; cases hfail
      · have : (tryToFold hook s opId).succeeded = true := by
          by_cases hre : (materializeAll
              (applySwap s opId op (computeOperandConstants s op)).1 opId
              (frs.zip (applySwap s opId op (computeOperandConstants s op)).2.1.resultTypes)).2.isEmpty
          · simp [tryToFold, tryToFoldImpl, halive, hnc, hh, hemp, hre]
          · simp [tryToFold, tryToFoldImpl, halive, hnc, hh, hemp, hre]
        rw [this] at hfail; cases hfail
  rw [hstep]
  by_cases hsw : swapCondition op (computeOperandConstants s op) = true
  · have happ : (applySwap s opId op (computeOperandConstants s op)).1 =
        updateOp s opId { op with operands := swapFirstTwo op.operands } := by
      unfold applySwap; rw [if_pos hsw]
    rw [if_pos hsw]
    refine ⟨by rw [happ]; rfl, by rw [happ]; rfl, by rw [happ]; rfl, ?_, ?_⟩
    · intro u hu
      show lookupOp (applySwap s opId op (computeOperandConstants s op)).1 u = _
      rw [happ, lookupOp_updateOp, if_neg hu]
    · show lookupOp (applySwap s opId op (computeOperandConstants s op)).1 opId = _
      rw [happ, lookupOp_updateOp, if_pos rfl, halive]
      rfl
  · have hsw' : swapCondition op (computeOperandConstants s op) = false := by
      simpa using hsw
    have happ : (applySwap s opId op (computeOperandConstants s op)).1 = s := by
      unfold applySwap; rw [if_neg (by simp [hsw'])]
    rw [if_neg (by simp [hsw'])]
    exact ⟨by rw [happ], by rw [happ], by rw [happ], fun u _ => by rw [happ],
      by rw [happ, halive]⟩

/-- Witness for the amended C1 at the counterexample's own input. -/
theorem tryToFold_failure_frame_witness :
    lookupOp c1State 2 = some w7Add ∧ w7Add.isConstant = false ∧
    (tryToFold c1Hook c1State 2).succeeded = false ∧
    ((tryToFold c1Hook c1State 2).state.blocks = c1State.blocks ∧
     (tryToFold c1Hook c1State 2).state.uniquedConstants = c1State.uniquedConstants ∧
     (tryToFold c1Hook c1State 2).state.nextId = c1State.nextId ∧
     (∀ u, u ≠ 2 → lookupOp (tryToFold c1Hook c1State 2).state u = lookupOp c1State u) ∧
     lookupOp (tryToFold c1Hook c1State 2).state 2 =
       some (if swapCondition w7Add (computeOperandConstants c1State w7Add)
             then { w7Add with operands := swapFirstTwo w7Add.operands } else w7Add)) :=
  ⟨by decide, by decide, by decide,
   tryToFold_failure_frame c1Hook c1State 2 w7Add (by decide) (by decide) (by decide)⟩

/-! ### The generic create helper (C9) -/

theorem ops_insertOpAt (s : FoldState) (newOp : Operation) (blk pos : Nat) :
    (insertOpAt s newOp blk pos).ops = (s.nextId, newOp) :: s.ops := rfl

theorem lookupOp_insertOpAt (s : FoldState) (newOp : Operation) (blk pos j : Nat) :
    lookupOp (insertOpAt s newOp blk pos) j =
      if j = s.nextId then some newOp else lookupOp s j := by
  unfold lookupOp
  rw [ops_insertOpAt]
  by_cases h : j = s.nextId
  · subst h; simp [List.find?_cons]
  · have hb : (s.nextId == j) = false := by
      simpa using fun e => h e.symm
    simp only [List.find?_cons, hb]
    rw [if_neg h]

theorem tryToFoldImpl_none_state (hook : FoldHook) (s : FoldState) (opId : Nat)
    (op : Operation) (halive : lookupOp s opId = some op) (s2 : FoldState)
    (h : tryToFoldImpl hook s opId = (s2, none)) :
    s2 = (applySwap s opId op (computeOperandConstants s op)).1 := by
  cases hh : hook (applySwap s opId op (computeOperandConstants s op)).2.1
      (applySwap s opId op (computeOperandConstants s op)).2.2 with
  | none =>
    have he : tryToFoldImpl hook s opId =
        ((applySwap s opId op (computeOperandConstants s op)).1, none) := by
      simp [tryToFoldImpl, halive, hh]
    rw [he] at h
    exact (Prod.mk.injEq _ _ _ _ ▸ h).1.symm
  | some frs =>
    exfalso
    by_cases hemp : frs.isEmpty <;>
      simp [tryToFoldImpl, halive, hh, hemp] at h

theorem lookupOp_applySwap_self (s : FoldState) (opId : Nat) (op : Operation)
    (oc : List (Option Attr)) (halive : lookupOp s opId = some op) :
    (lookupOp (applySwap s opId op oc).1 opId).isSome = true := by
  by_cases hsw : swapCondition op oc = true
  · simp [applySwap, hsw, lookupOp_updateOp, halive]
  · simp [applySwap, hsw, halive]

/-- C9: in the generic create helper, when the internal fold succeeds
with an *empty* results buffer on a freshly built operation with at
least one declared result, the operation is erased anyway and the
caller's results buffer is left empty — the caller receives no
replacement value; only when the internal fold fails is the operation
retained, with the results set to its own result values. -/
theorem create_inPlace_success_erases (hook : FoldHook) (s : FoldState)
    (newOp : Operation) (blk pos : Nat) (hres : 1 ≤ newOp.numResults) :
    (∀ s2, tryToFoldImpl hook (insertOpAt s newOp blk pos) s.nextId = (s2, some []) →
      createAndFold hook s newOp blk pos = (eraseOp s2 s.nextId, []) ∧
      lookupOp (createAndFold hook s newOp blk pos).1 s.nextId = none ∧
      (createAndFold hook s newOp blk pos).2 = []) ∧
    (∀ s2, tryToFoldImpl hook (insertOpAt s newOp blk pos) s.nextId = (s2, none) →
      createAndFold hook s newOp blk pos =
        (s2, (List.range newOp.numResults).map (fun i => ⟨s.nextId, i⟩)) ∧
      (lookupOp s2 s.nextId).isSome = true) := by
  have hnz : (newOp.numResults != 0) = true := by
    have : newOp.numResults ≠ 0 := Nat.one_le_iff_ne_zero.mp hres
    simpa using this
  constructor
  · intro s2 h
    have he : createAndFold hook s newOp blk pos = (eraseOp s2 s.nextId, []) := by
      simp [createAndFold, h, hnz]
    refine ⟨he, ?_, by rw [he]⟩
    rw [he]
    show lookupOp (eraseOp _ _) _ = _
    rw [lookupOp_eraseOp, if_pos rfl]
  · intro s2 h
    have he : createAndFold hook s newOp blk pos =
        (s2, (List.range newOp.numResults).map (fun i => ⟨s.nextId, i⟩)) := by
      simp [createAndFold, h]
    have halive1 : lookupOp (insertOpAt s newOp blk pos) s.nextId = some newOp := by
      rw [lookupOp_insertOpAt, if_pos rfl]
    have hs2 := tryToFoldImpl_none_state hook (insertOpAt s newOp blk pos) s.nextId
      newOp halive1 s2 h
    refine ⟨he, ?_⟩
    rw [hs2]
    exact lookupOp_applySwap_self _ _ _ _ halive1

def w9Op : Operation :=
  { isConstant := false, constValue := 0, commutative := false,
    operands := [], resultTypes := [0] }

def w9Hook : FoldHook := fun _ _ => some []

def w9State : FoldState :=
  { ops := [], blocks := [[]], uniquedConstants := [], nextId := 0 }

/-- Witness for C9 at a fresh one-result operation whose hook reports
an in-place update (success with empty results). -/
theorem create_inPlace_success_erases_witness :
    1 ≤ w9Op.numResults ∧
    ((∀ s2, tryToFoldImpl w9Hook (insertOpAt w9State w9Op 0 0) w9State.nextId =
        (s2, some []) →
      createAndFold w9Hook w9State w9Op 0 0 = (eraseOp s2 w9State.nextId, []) ∧
      lookupOp (createAndFold w9Hook w9State w9Op 0 0).1 w9State.nextId = none ∧
      (createAndFold w9Hook w9State w9Op 0 0).2 = []) ∧
    (∀ s2, tryToFoldImpl w9Hook (insertOpAt w9State w9Op 0 0) w9State.nextId =
        (s2, none) →
      createAndFold w9Hook w9State w9Op 0 0 =
        (s2, (List.range w9Op.numResults).map (fun i => ⟨w9State.nextId, i⟩)) ∧
      (lookupOp s2 w9State.nextId).isSome = true)) :=
  ⟨by decide, create_inPlace_success_erases w9Hook w9State w9Op 0 0 (by decide)⟩

/-! ### Full replacement correctness (C4) -/

/-- The substitution performed on one operand slot by the sequential
rewiring loop `replaceResultsFrom` starting at result index `start`. -/
def seqSubstFrom (opId start : Nat) (rs : List Val) (v : Val) : Val :=
  match rs with
  | [] => v
  | r :: rest => seqSubstFrom opId (start + 1) rest (replaceVal ⟨opId, start⟩ r v)

theorem lookupOp_replaceResultsFrom (s : FoldState) (opId start : Nat) (rs : List Val)
    (u : Nat) :
    lookupOp (replaceResultsFrom s opId start rs) u =
      (lookupOp s u).map
        (fun op => { op with operands := op.operands.map (seqSubstFrom opId start rs) }) := by
  induction rs generalizing s start with
  | nil =>
    show lookupOp s u = _
    cases lookupOp s u <;> simp [seqSubstFrom]
  | cons r rest ih =>
    show lookupOp (replaceResultsFrom (replaceAllUsesWith s ⟨opId, start⟩ r)
        opId (start + 1) rest) u = _
    rw [ih, lookupOp_replaceAllUsesWith]
    cases lookupOp s u <;> simp [seqSubstFrom, List.map_map, Function.comp]

theorem seqSubstFrom_not_producer (opId start : Nat) (rs : List Val) (v : Val)
    (hv : v.producer ≠ opId) :
    seqSubstFrom opId start rs v = v := by
  induction rs generalizing start with
  | nil => rfl
  | cons r rest ih =>
    show seqSubstFrom opId (start + 1) rest (replaceVal ⟨opId, start⟩ r v) = v
    have : replaceVal ⟨opId, start⟩ r v = v := by
      unfold replaceVal
      rw [if_neg]
      intro he
      exact hv (by rw [show v = (⟨opId, start⟩ : Val) from by simpa using he])
    rw [this, ih]

theorem seqSubstFrom_hit (opId k : Nat) (rs : List Val) :
    ∀ start, (∀ r ∈ rs, r.producer ≠ opId) → start ≤ k → k - start < rs.length →
      some (seqSubstFrom opId start rs ⟨opId, k⟩) = rs[k - start]? := by
  induction rs with
  | nil =>
    intro start hno hsk hk
    simp at hk
  | cons r rest ih =>
    intro start hno hsk hk
    by_cases hks : k = start
    · subst hks
      show some (seqSubstFrom opId (k + 1) rest (replaceVal ⟨opId, k⟩ r ⟨opId, k⟩)) = _
      have hrep : replaceVal ⟨opId, k⟩ r ⟨opId, k⟩ = r := by
        unfold replaceVal; rw [if_pos (by simp)]
      rw [hrep, seqSubstFrom_not_producer _ _ _ _ (hno r (List.mem_cons_self r rest))]
      simp
    · have hlt : start < k := lt_of_le_of_ne hsk (fun e => hks e.symm)
      show some (seqSubstFrom opId (start + 1) rest (replaceVal ⟨opId, start⟩ r ⟨opId, k⟩)) = _
      have hrep : replaceVal ⟨opId, start⟩ r ⟨opId, k⟩ = ⟨opId, k⟩ := by
        unfold replaceVal
        rw [if_neg]
        intro he
        exact hks (by simpa using he)
      have hk' : k - (start + 1) < rest.length := by
        simp only [List.length_cons] at hk
        omega
      rw [hrep, ih (start + 1) (fun x hx => hno x (List.mem_cons_of_mem r hx))
        (by omega) hk']
      have hks' : k - start = (k - (start + 1)) + 1 := by omega
      rw [hks', List.getElem?_cons_succ]

theorem lookupOp_materializeAll (s : FoldState) (anchor : Nat)
    (frs : List (FoldRes × Ty)) (u : Nat) (hu : u < s.nextId) :
    lookupOp (materializeAll s anchor frs).1 u = lookupOp s u ∧
    s.nextId ≤ (materializeAll s anchor frs).1.nextId := by
  induction frs generalizing s with
  | nil => exact ⟨rfl, Nat.le_refl _⟩
  | cons hd rest ih =>
    rcases hd with ⟨fr, ty⟩
    show lookupOp (materializeAll (materializeResult s anchor ty fr).1 anchor rest).1 u = _ ∧
      s.nextId ≤ (materializeAll (materializeResult s anchor ty fr).1 anchor rest).1.nextId
    cases fr with
    | value v => exact ih s hu
    | attr a =>
      cases hcl : cacheLookup s (a, ty) with
      | some c =>
        have he : materializeResult s anchor ty (FoldRes.attr a) = (s, ⟨c, 0⟩) := by
          simp [materializeResult, hcl]
        rw [he]
        exact ih s hu
      | none =>
        have he : (materializeResult s anchor ty (FoldRes.attr a)).1 =
            moveConstantToEntryBlock
              (cacheInsert
                (insertOpBefore s anchor s.nextId
                  { isConstant := true, constValue := a, commutative := false,
                    operands := [], resultTypes := [ty] })
                (a, ty) s.nextId) s.nextId := by
          simp [materializeResult, hcl]
        rw [he]
        have hnext : (moveConstantToEntryBlock
            (cacheInsert
              (insertOpBefore s anchor s.nextId
                { isConstant := true, constValue := a, commutative := false,
                  operands := [], resultTypes := [ty] })
              (a, ty) s.nextId) s.nextId).nextId = s.nextId + 1 := rfl
        have hlook : lookupOp (moveConstantToEntryBlock
            (cacheInsert
              (insertOpBefore s anchor s.nextId
                { isConstant := true, constValue := a, commutative := false,
                  operands := [], resultTypes := [ty] })
              (a, ty) s.nextId) s.nextId) u = lookupOp s u := by
          show lookupOp (insertOpBefore s anchor s.nextId _) u = lookupOp s u
          rw [lookupOp_insertOpBefore, if_neg (Nat.ne_of_lt hu)]
        have hih := ih _ (by rw [hnext]; exact Nat.lt_succ_of_lt hu)
        rw [hlook] at hih
        have h2 := hih.2
        rw [hnext] at h2
        exact ⟨hih.1, le_trans (Nat.le_succ _) h2⟩

theorem lookupOp_applySwap_other (s : FoldState) (opId : Nat) (op : Operation)
    (oc : List (Option Attr)) (u : Nat) (hu : u ≠ opId) :
    lookupOp (applySwap s opId op oc).1 u = lookupOp s u := by
  by_cases hsw : swapCondition op oc = true
  · simp [applySwap, hsw, lookupOp_updateOp, hu]
  · simp [applySwap, hsw]

theorem nextId_applySwap (s : FoldState) (opId : Nat) (op : Operation)
    (oc : List (Option Attr)) :
    (applySwap s opId op oc).1.nextId = s.nextId := by
  by_cases hsw : swapCondition op oc = true
  · simp [applySwap, hsw, nextId_updateOp]
  · simp [applySwap, hsw]

theorem tryToFoldImpl_some_state (hook : FoldHook) (s : FoldState) (opId : Nat)
    (op : Operation) (halive : lookupOp s opId = some op) (s1 : FoldState)
    (results : List Val)
    (h : tryToFoldImpl hook s opId = (s1, some results)) :
    ∃ frs, hook (applySwap s opId op (computeOperandConstants s op)).2.1
        (applySwap s opId op (computeOperandConstants s op)).2.2 = some frs ∧
      ((frs.isEmpty = true ∧ s1 = (applySwap s opId op (computeOperandConstants s op)).1 ∧
        results = []) ∨
       (frs.isEmpty = false ∧
        s1 = (materializeAll (applySwap s opId op (computeOperandConstants s op)).1
          opId (frs.zip
            (applySwap s opId op (computeOperandConstants s op)).2.1.resultTypes)).1 ∧
        results = (materializeAll (applySwap s opId op (computeOperandConstants s op)).1
          opId (frs.zip
            (applySwap s opId op (computeOperandConstants s op)).2.1.resultTypes)).2)) := by
  cases hh : hook (applySwap s opId op (computeOperandConstants s op)).2.1
      (applySwap s opId op (computeOperandConstants s op)).2.2 with
  | none =>
    exfalso
    have : tryToFoldImpl hook s opId =
        ((applySwap s opId op (computeOperandConstants s op)).1, none) := by
      simp [tryToFoldImpl, halive, hh]
    rw [this] at h
    simpa using h
  | some frs =>
    refine ⟨frs, rfl, ?_⟩
    by_cases hemp : frs.isEmpty = true
    · left
      have : tryToFoldImpl hook s opId =
          ((applySwap s opId op (computeOperandConstants s op)).1, some []) := by
        simp [tryToFoldImpl, halive, hh, hemp]
      rw [this] at h
      have h' := (Prod.mk.injEq _ _ _ _ ▸ h)
      exact ⟨hemp, h'.1.symm, by simpa using h'.2.symm⟩
    · right
      have hemp' : frs.isEmpty = false := by simpa using hemp
      have : tryToFoldImpl hook s opId =
          ((materializeAll (applySwap s opId op (computeOperandConstants s op)).1
            opId (frs.zip
              (applySwap s opId op (computeOperandConstants s op)).2.1.resultTypes)).1,
           some (materializeAll (applySwap s opId op (computeOperandConstants s op)).1
            opId (frs.zip
              (applySwap s opId op (computeOperandConstants s op)).2.1.resultTypes)).2) := by
        simp [tryToFoldImpl, halive, hh, hemp']
      rw [this] at h
      have h' := (Prod.mk.injEq _ _ _ _ ▸ h)
      exact ⟨hemp', h'.1.symm, by simpa using h'.2.symm⟩

theorem lookupOp_mem (s : FoldState) (u : Nat) (opu : Operation)
    (h : lookupOp s u = some opu) : (u, opu) ∈ s.ops := by
  unfold lookupOp at h
  cases hf : s.ops.find? (fun q => q.1 == u) with
  | none => rw [hf] at h; cases h
  | some q =>
    rw [hf] at h
    have hq : (q.1 == u) = true :=
      @List.find?_some _ (fun r0 => r0.1 == u) q s.ops hf
    have hmem : q ∈ s.ops := List.mem_of_find?_eq_some hf
    have h1 : q.1 = u := by simpa using hq
    have h2 : q.2 = opu := by simpa using h
    have hqe : q = (u, opu) := by
      cases q
      simp only at h1 h2
      rw [h1, h2]
    rw [← hqe]
    exact hmem

/-- C4: when `tryToFold` reports success on a (non-constant) operation
with a non-empty replacement buffer, the operation has been erased, and
every operand slot of every surviving operation that previously held
the `i`-th result of the operation now holds the `i`-th replacement
value.  The hypothesis that no replacement value is a result of the
folded operation itself reflects that such a fold would leave dangling
uses after the erasure. -/
theorem tryToFold_full_replacement (hook : FoldHook) (s : FoldState) (opId : Nat)
    (op : Operation)
    (halive : lookupOp s opId = some op) (hnc : op.isConstant = false)
    (hb : s.ops.all (fun p => p.1 < s.nextId) = true)
    (hsucc : (tryToFold hook s opId).succeeded = true)
    (hner : (tryToFold hook s opId).results ≠ [])
    (hnoself : ∀ r ∈ (tryToFold hook s opId).results, r.producer ≠ opId) :
    lookupOp (tryToFold hook s opId).state opId = none ∧
    (∀ (u : Nat) (opu : Operation) (slot k : Nat), u ≠ opId → lookupOp s u = some opu →
      opu.operands[slot]? = some (⟨opId, k⟩ : Val) →
      k < (tryToFold hook s opId).results.length →
      ∃ opu', lookupOp (tryToFold hook s opId).state u = some opu' ∧
        opu'.operands[slot]? = (tryToFold hook s opId).results[k]?) := by
  cases hti : tryToFoldImpl hook s opId with
  | mk s1 ro =>
    cases ro with
    | none =>
      exfalso
      have : (tryToFold hook s opId).succeeded = false := by
        simp [tryToFold, halive, hnc, hti]
      rw [this] at hsucc
      cases hsucc
    | some results =>
      by_cases hemp : results.isEmpty = true
      · exfalso
        have hre : (tryToFold hook s opId).results = results := by
          simp [tryToFold, halive, hnc, hti, hemp]
        rw [List.isEmpty_iff] at hemp
        exact hner (hre.trans hemp)
      · have hemp' : results.isEmpty = false := by simpa using hemp
        have hout : tryToFold hook s opId =
            ⟨eraseOp (replaceResultsFrom s1 opId 0 results) opId, true, results,
             true⟩ := by
          simp [tryToFold, halive, hnc, hti, hemp']
        have hframe : ∀ u opu, u ≠ opId → lookupOp s u = some opu →
            lookupOp s1 u = some opu := by
          intro u opu hu halu
          have humem := lookupOp_mem s u opu halu
          have hult : u < s.nextId := by
            have := List.all_eq_true.mp hb _ humem
            simpa using this
          rcases tryToFoldImpl_some_state hook s opId op halive s1 results hti with
            ⟨frs, hhook, hcase⟩
          have hswl : lookupOp (applySwap s opId op (computeOperandConstants s op)).1 u =
              some opu := by
            rw [lookupOp_applySwap_other _ _ _ _ _ hu, halu]
          rcases hcase with ⟨hfe, hs1, hres⟩ | ⟨hfe, hs1, hres⟩
          · rw [hs1]; exact hswl
          · rw [hs1]
            have hult2 : u < (applySwap s opId op (computeOperandConstants s op)).1.nextId := by
              rw [nextId_applySwap]; exact hult
            rw [(lookupOp_materializeAll _ _ _ _ hult2).1]
            exact hswl
        have hns : ∀ r ∈ results, r.producer ≠ opId := by
          intro r hr
          apply hnoself
          rw [hout]
          exact hr
        rw [hout]
        constructor
        · show lookupOp (eraseOp (replaceResultsFrom s1 opId 0 results) opId) opId = none
          rw [lookupOp_eraseOp, if_pos rfl]
        · intro u opu slot k hu halu hslot hk
          have hk0 : k < results.length := by simpa using hk
          refine Exists.intro { opu with operands := opu.operands.map (seqSubstFrom opId 0 results) } ⟨?_, ?_⟩
          · show lookupOp (eraseOp (replaceResultsFrom s1 opId 0 results) opId) u = _
            rw [lookupOp_eraseOp, if_neg hu, lookupOp_replaceResultsFrom,
              hframe u opu hu halu]
            rfl
          · show (opu.operands.map (seqSubstFrom opId 0 results))[slot]? = results[k]?
            rw [List.getElem?_map, hslot]
            show some (seqSubstFrom opId 0 results ⟨opId, k⟩) = results[k]?
            have hhit := seqSubstFrom_hit opId k results 0 hns (Nat.zero_le k)
              (by simpa using hk0)
            rw [Nat.sub_zero] at hhit
            exact hhit

def w4Const2 : Operation :=
  { isConstant := true, constValue := 2, commutative := false,
    operands := [], resultTypes := [0] }

def w4Const3 : Operation :=
  { isConstant := true, constValue := 3, commutative := false,
    operands := [], resultTypes := [0] }

def w4Add : Operation :=
  { isConstant := false, constValue := 0, commutative := true,
    operands := [⟨0, 0⟩, ⟨1, 0⟩], resultTypes := [0] }

def w4User : Operation :=
  { isConstant := false, constValue := 0, commutative := false,
    operands := [⟨2, 0⟩], resultTypes := [0] }

def w4State : FoldState :=
  { ops := [(0, w4Const2), (1, w4Const3), (2, w4Add), (3, w4User)],
    blocks := [[0, 1, 2, 3]], uniquedConstants := [], nextId := 4 }

/-- An integer-addition fold hook: folds exactly when both operand
constants are present. -/
def w4Hook : FoldHook := fun _ oc =>
  match oc with
  | [some x, some y] => some [FoldRes.attr (x + y)]
  | _ => none

/-- Witness for C4: folding `add(const 2, const 3)` replaces the use in
the fourth operation by the materialized `const 5` and erases the
add. -/
theorem tryToFold_full_replacement_witness :
    lookupOp w4State 2 = some w4Add ∧ w4Add.isConstant = false ∧
    w4State.ops.all (fun p => p.1 < w4State.nextId) = true ∧
    (tryToFold w4Hook w4State 2).succeeded = true ∧
    (tryToFold w4Hook w4State 2).results ≠ [] ∧
    (∀ r ∈ (tryToFold w4Hook w4State 2).results, r.producer ≠ 2) ∧
    (lookupOp (tryToFold w4Hook w4State 2).state 2 = none ∧
     (∀ (u : Nat) (opu : Operation) (slot k : Nat), u ≠ 2 → lookupOp w4State u = some opu →
       opu.operands[slot]? = some (⟨2, k⟩ : Val) →
       k < (tryToFold w4Hook w4State 2).results.length →
       ∃ opu', lookupOp (tryToFold w4Hook w4State 2).state u = some opu' ∧
         opu'.operands[slot]? = (tryToFold w4Hook w4State 2).results[k]?)) :=
  ⟨by decide, by decide, by decide, by decide, by decide, by decide,
   tryToFold_full_replacement w4Hook w4State 2 w4Add (by decide) (by decide)
     (by decide) (by decide) (by decide) (by decide)⟩

/-! ### The dominance invariant of the uniquing cache (C2)

The invariant `Inv` captures what stays true of a folder state across
every engine call: alive constants are operand-free single-result
operations, every cache entry names an alive constant of the matching
value and type that sits in the entry block behind only operand-free
operations, the alive map and the cache have unambiguous keys, and
every id in play is below the allocator. -/

/-- The function's entry block (`function->front()`). -/
def entryBlock (s : FoldState) : List Nat :=
  s.blocks.headD []

/-- Shape of a constant-like operation: no operands, one result. -/
def opShapeOK (op : Operation) : Bool :=
  !op.isConstant || (op.operands.isEmpty && op.resultTypes.length == 1)

/-- Every alive constant operation is operand-free with one result. -/
def constShape (s : FoldState) : Bool :=
  s.ops.all (fun p => opShapeOK p.2)

/-- The operations positioned strictly before the first occurrence of
`c` in a block. -/
def opsBefore (l : List Nat) (c : Nat) : List Nat :=
  l.takeWhile (fun x => x != c)

/-- `u` is either dead or has no operands. -/
def emptyOperandsAt (s : FoldState) (u : Nat) : Bool :=
  match lookupOp s u with
  | none => true
  | some opu => opu.operands.isEmpty

/-- Health of one cache entry: it names an alive constant of the keyed
value and type, sitting in the entry block with only operand-free
positions before it. -/
def cacheEntryOK (s : FoldState) (key : Attr × Ty) (c : Nat) : Bool :=
  match lookupOp s c with
  | none => false
  | some op =>
    op.isConstant && op.constValue == key.1 && op.resultTypes == [key.2] &&
    (entryBlock s).contains c &&
    (opsBefore (entryBlock s) c).all (fun u => emptyOperandsAt s u)

/-- Health of the whole cache. -/
def cacheOK (s : FoldState) : Bool :=
  s.uniquedConstants.all (fun p => cacheEntryOK s p.1 p.2)

/-- Every id in the alive map, the blocks and the cache is below the
allocator. -/
def idsBound (s : FoldState) : Bool :=
  s.ops.all (fun p => p.1 < s.nextId) &&
  s.blocks.all (fun b => b.all (fun i => i < s.nextId)) &&
  s.uniquedConstants.all (fun p => p.2 < s.nextId)

/-- The folder-state invariant. -/
def Inv (s : FoldState) : Prop :=
  constShape s = true ∧ cacheOK s = true ∧
  (s.ops.map (fun p => p.1)).Nodup ∧
  (s.uniquedConstants.map (fun p => p.1)).Nodup ∧
  idsBound s = true

instance (s : FoldState) : Decidable (Inv s) := by
  unfold Inv
  infer_instance

/-- First index of `x` in a block, as the length of the prefix of
entries different from `x`. -/
def idxIn (l : List Nat) (x : Nat) : Option Nat :=
  if l.contains x then some (l.takeWhile (fun y => y != x)).length else none

/-- Position of `x` in a block list: (block index, index in block) of
its first occurrence. -/
def posOfAux : List (List Nat) → Nat → Option (Nat × Nat)
  | [], _ => none
  | b :: rest, x =>
    match idxIn b x with
    | some i => some (0, i)
    | none => (posOfAux rest x).map (fun p => (p.1 + 1, p.2))

/-- Position of an operation in the function body. -/
def posOf (s : FoldState) (x : Nat) : Option (Nat × Nat) :=
  posOfAux s.blocks x

/-- Structural program order: earlier block, or same block and earlier
index. -/
def posLt (p q : Nat × Nat) : Bool :=
  p.1 < q.1 || (p.1 == q.1 && p.2 < q.2)

/-- One engine call of the sequences quantified over in the dominance
invariant. -/
inductive EngineCall where
  | fold (opId : Nat)
  | removal (opId : Nat)

/-- Run one engine call. -/
def runCall (hook : FoldHook) (s : FoldState) (c : EngineCall) : FoldState :=
  match c with
  | EngineCall.fold opId => (tryToFold hook s opId).state
  | EngineCall.removal opId => notifyRemoval s opId

/-- Run a sequence of engine calls. -/
def runCalls (hook : FoldHook) (s : FoldState) (calls : List EngineCall) : FoldState :=
  calls.foldl (runCall hook) s

/-! #### List lemmas for blocks and prefixes -/

theorem takeWhile_filter_comm (l : List Nat) (p q : Nat → Bool)
    (h : ∀ x, p x = false → q x = true) :
    (l.filter p).takeWhile q = (l.takeWhile q).filter p := by
  induction l with
  | nil => rfl
  | cons x xs ih =>
    by_cases hp : p x = true
    · by_cases hq : q x = true
      · simp [List.filter_cons, List.takeWhile_cons, hp, hq, ih]
      · have hq' : q x = false := by simpa using hq
        simp [List.filter_cons, List.takeWhile_cons, hp, hq']
    · have hp' : p x = false := by simpa using hp
      have hqx := h x hp'
      simp [List.filter_cons, List.takeWhile_cons, hp', hqx, ih]

theorem takeWhile_append_of_all (l1 l2 : List Nat) (q : Nat → Bool)
    (h : ∀ x ∈ l1, q x = true) :
    (l1 ++ l2).takeWhile q = l1 ++ l2.takeWhile q := by
  induction l1 with
  | nil => rfl
  | cons x xs ih =>
    have hx := h x (List.mem_cons_self x xs)
    simp only [List.cons_append, List.takeWhile_cons, hx, if_true]
    rw [ih (fun y hy => h y (List.mem_cons_of_mem x hy))]

theorem dropWhile_ne_cons (l : List Nat) (x : Nat) (h : x ∈ l) :
    ∃ r, l.dropWhile (fun y => y != x) = x :: r := by
  induction l with
  | nil => cases h
  | cons y ys ih =>
    by_cases hyx : y = x
    · subst hyx
      exact ⟨ys, by simp [List.dropWhile_cons]⟩
    · have : (y != x) = true := by simpa using hyx
      rw [List.dropWhile_cons]
      simp only [this, if_true]
      exact ih (by rcases List.mem_cons.mp h with h' | h'; exact absurd h'.symm hyx; exact h')

theorem mem_takeWhile_sat {l : List Nat} {q : Nat → Bool} {x : Nat}
    (h : x ∈ l.takeWhile q) : x ∈ l ∧ q x = true := by
  induction l with
  | nil => cases h
  | cons y ys ih =>
    rw [List.takeWhile_cons] at h
    by_cases hq : q y = true
    · rw [if_pos hq] at h
      rcases List.mem_cons.mp h with h' | h'
      · subst h'; exact ⟨List.mem_cons_self _ _, hq⟩
      · rcases ih h' with ⟨hm, hs⟩
        exact ⟨List.mem_cons_of_mem _ hm, hs⟩
    · rw [if_neg hq] at h
      cases h

theorem mem_insertBeforeInBlock {b : List Nat} {anchor n x : Nat}
    (h : x ∈ insertBeforeInBlock b anchor n) : x = n ∨ x ∈ b := by
  induction b with
  | nil => cases h
  | cons y ys ih =>
    unfold insertBeforeInBlock at h
    by_cases hy : (y == anchor) = true
    · rw [if_pos hy] at h
      rcases List.mem_cons.mp h with h' | h'
      · exact Or.inl h'
      · exact Or.inr h'
    · rw [if_neg hy] at h
      rcases List.mem_cons.mp h with h' | h'
      · exact Or.inr (h' ▸ List.mem_cons_self _ _)
      · rcases ih h' with h'' | h''
        · exact Or.inl h''
        · exact Or.inr (List.mem_cons_of_mem _ h'')

theorem mem_of_mem_insertBeforeInBlock {b : List Nat} {anchor n x : Nat}
    (h : x ∈ b) : x ∈ insertBeforeInBlock b anchor n := by
  induction b with
  | nil => cases h
  | cons y ys ih =>
    unfold insertBeforeInBlock
    by_cases hy : (y == anchor) = true
    · rw [if_pos hy]
      exact List.mem_cons_of_mem _ h
    · rw [if_neg hy]
      rcases List.mem_cons.mp h with h' | h'
      · exact h' ▸ List.mem_cons_self _ _
      · exact List.mem_cons_of_mem _ (ih h')

theorem opsBefore_insertBeforeInBlock {b : List Nat} {anchor n c x : Nat}
    (hnc : n ≠ c)
    (h : x ∈ opsBefore (insertBeforeInBlock b anchor n) c) :
    x = n ∨ x ∈ opsBefore b c := by
  induction b with
  | nil => cases h
  | cons y ys ih =>
    unfold insertBeforeInBlock at h
    by_cases hy : (y == anchor) = true
    · rw [if_pos hy] at h
      unfold opsBefore at h
      rw [List.takeWhile_cons, if_pos (by simpa using hnc)] at h
      rcases List.mem_cons.mp h with h' | h'
      · exact Or.inl h'
      · exact Or.inr h'
    · rw [if_neg hy] at h
      unfold opsBefore at h
      by_cases hyc : y = c
      · rw [List.takeWhile_cons, if_neg (by simpa using hyc)] at h
        cases h
      · rw [List.takeWhile_cons, if_pos (by simpa using hyc)] at h
        rcases List.mem_cons.mp h with h' | h'
        · subst h'
          exact Or.inr (by
            unfold opsBefore
            rw [List.takeWhile_cons, if_pos (by simpa using hyc)]
            exact List.mem_cons_self _ _)
        · rcases ih h' with h'' | h''
          · exact Or.inl h''
          · exact Or.inr (by
              unfold opsBefore
              rw [List.takeWhile_cons, if_pos (by simpa using hyc)]
              exact List.mem_cons_of_mem _ h'')

/-! #### Unfolding helpers for the invariant -/

theorem cacheOK_iff (s : FoldState) :
    cacheOK s = true ↔ ∀ p ∈ s.uniquedConstants, cacheEntryOK s p.1 p.2 = true := by
  unfold cacheOK
  rw [List.all_eq_true]

theorem constShape_iff (s : FoldState) :
    constShape s = true ↔ ∀ p ∈ s.ops, opShapeOK p.2 = true := by
  unfold constShape
  rw [List.all_eq_true]

theorem idsBound_iff (s : FoldState) :
    idsBound s = true ↔
      (∀ p ∈ s.ops, p.1 < s.nextId) ∧
      (∀ b ∈ s.blocks, ∀ i ∈ b, i < s.nextId) ∧
      (∀ p ∈ s.uniquedConstants, p.2 < s.nextId) := by
  unfold idsBound
  simp [List.all_eq_true, and_assoc]

theorem cacheEntryOK_elim {s : FoldState} {key : Attr × Ty} {c : Nat}
    (h : cacheEntryOK s key c = true) :
    ∃ op, lookupOp s c = some op ∧ op.isConstant = true ∧ op.constValue = key.1 ∧
      op.resultTypes = [key.2] ∧ (entryBlock s).contains c = true ∧
      ∀ u ∈ opsBefore (entryBlock s) c, emptyOperandsAt s u = true := by
  unfold cacheEntryOK at h
  cases hl : lookupOp s c with
  | none => rw [hl] at h; cases h
  | some op =>
    rw [hl] at h
    simp only [Bool.and_eq_true, beq_iff_eq] at h
    exact ⟨op, rfl, h.1.1.1.1, h.1.1.1.2, h.1.1.2, h.1.2,
      fun u hu => List.all_eq_true.mp h.2 u hu⟩

theorem cacheEntryOK_intro {s : FoldState} {key : Attr × Ty} {c : Nat}
    {op : Operation} (hl : lookupOp s c = some op)
    (h1 : op.isConstant = true) (h2 : op.constValue = key.1)
    (h3 : op.resultTypes = [key.2]) (h4 : (entryBlock s).contains c = true)
    (h5 : ∀ u ∈ opsBefore (entryBlock s) c, emptyOperandsAt s u = true) :
    cacheEntryOK s key c = true := by
  unfold cacheEntryOK
  rw [hl]
  simp only [Bool.and_eq_true, beq_iff_eq]
  exact ⟨⟨⟨⟨h1, h2⟩, by rw [h3]⟩, h4⟩, List.all_eq_true.mpr h5⟩

theorem const_shape_of_lookup {s : FoldState} {i : Nat} {op : Operation}
    (hInv : Inv s) (hl : lookupOp s i = some op) (hc : op.isConstant = true) :
    op.operands = [] ∧ op.resultTypes.length = 1 := by
  have hm := lookupOp_mem s i op hl
  have hs := (constShape_iff s).mp hInv.1 _ hm
  unfold opShapeOK at hs
  rw [hc] at hs
  simp only [Bool.not_true, Bool.false_or, Bool.and_eq_true, beq_iff_eq] at hs
  exact ⟨List.isEmpty_iff.mp hs.1, hs.2⟩

theorem lookupOp_eq_some_iff {s : FoldState} {j : Nat} {op : Operation} :
    lookupOp s j = some op ↔
      ∃ p, s.ops.find? (fun q => q.1 == j) = some p ∧ p.2 = op := by
  unfold lookupOp
  cases s.ops.find? (fun q => q.1 == j) <;> simp

theorem lookupOp_map_ops (s : FoldState) (g : Nat × Operation → Operation) (j : Nat) :
    lookupOp { s with ops := s.ops.map (fun p => (p.1, g p)) } j =
      (s.ops.find? (fun p => p.1 == j)).map g := by
  unfold lookupOp
  show ((s.ops.map (fun p => (p.1, g p))).find? (fun p => p.1 == j)).map
    (fun p => p.2) = _
  rw [find_key_map_val]
  cases s.ops.find? (fun p => p.1 == j) <;> rfl

theorem opShapeOK_congr {a b : Operation} (h1 : a.isConstant = b.isConstant)
    (h2 : a.operands.isEmpty = b.operands.isEmpty)
    (h3 : a.resultTypes = b.resultTypes) : opShapeOK a = opShapeOK b := by
  unfold opShapeOK
  rw [h1, h2, h3]

/-! #### Invariant preservation: operand rewrites -/

theorem Inv_map_ops (s : FoldState) (g : Nat × Operation → Operation)
    (hg : ∀ p ∈ s.ops, (g p).isConstant = p.2.isConstant ∧
      (g p).constValue = p.2.constValue ∧ (g p).resultTypes = p.2.resultTypes ∧
      (g p).operands.isEmpty = p.2.operands.isEmpty)
    (hInv : Inv s) :
    Inv { s with ops := s.ops.map (fun p => (p.1, g p)) } := by
  obtain ⟨hshape, hcache, hknd, hcknd, hbound⟩ := hInv
  have hkeys : (s.ops.map (fun p => (p.1, g p))).map (fun p => p.1) =
      s.ops.map (fun p => p.1) := by
    rw [List.map_map]; rfl
  refine ⟨?_, ?_, ?_, hcknd, ?_⟩
  · rw [constShape_iff]
    intro q hq
    rcases List.mem_map.mp hq with ⟨p, hp, rfl⟩
    show opShapeOK (g p) = true
    rcases hg p hp with ⟨h1, h2, h3, h4⟩
    rw [opShapeOK_congr h1 h4 h3]
    exact (constShape_iff s).mp hshape p hp
  · rw [cacheOK_iff]
    intro q hq
    have hok := (cacheOK_iff s).mp hcache q hq
    rcases cacheEntryOK_elim hok with ⟨op, hl, h1, h2, h3, h4, h5⟩
    rcases lookupOp_eq_some_iff.mp hl with ⟨p, hfind, hp2⟩
    have hpmem := List.mem_of_find?_eq_some hfind
    rcases hg p hpmem with ⟨g1, g2, g3, g4⟩
    refine @cacheEntryOK_intro _ _ _ (g p) ?_ ?_ ?_ ?_ ?_ ?_
    · rw [lookupOp_map_ops, hfind]; rfl
    · rw [g1, hp2, h1]
    · rw [g2, hp2, h2]
    · rw [g3, hp2, h3]
    · exact h4
    · intro u hu
      have hemp := h5 u hu
      unfold emptyOperandsAt at hemp ⊢
      rw [lookupOp_map_ops]
      cases hf : s.ops.find? (fun q0 => q0.1 == u) with
      | none =>
        rfl
      | some pu =>
        have : lookupOp s u = some pu.2 := by
          unfold lookupOp; rw [hf]; rfl
        rw [this] at hemp
        show (g pu).operands.isEmpty = true
        rw [(hg pu (List.mem_of_find?_eq_some hf)).2.2.2]
        exact hemp
  · show ((s.ops.map (fun p => (p.1, g p))).map (fun p => p.1)).Nodup
    rw [hkeys]
    exact hknd
  · rw [idsBound_iff] at hbound ⊢
    refine ⟨?_, hbound.2.1, hbound.2.2⟩
    intro q hq
    rcases List.mem_map.mp hq with ⟨p, hp, rfl⟩
    exact hbound.1 p hp

theorem Inv_replaceAllUsesWith (s : FoldState) (old new : Val) (hInv : Inv s) :
    Inv (replaceAllUsesWith s old new) := by
  have he : replaceAllUsesWith s old new =
      { s with ops := s.ops.map (fun p =>
          (p.1, { p.2 with operands := p.2.operands.map (replaceVal old new) })) } := rfl
  rw [he]
  apply Inv_map_ops _ _ _ hInv
  intro p _
  refine ⟨rfl, rfl, rfl, ?_⟩
  cases p.2.operands <;> rfl

/-! #### Invariant preservation: erasure and cache removal -/

theorem entryBlock_eraseOp (s : FoldState) (i : Nat) :
    entryBlock (eraseOp s i) = (entryBlock s).filter (fun x => x != i) := by
  unfold entryBlock
  rw [blocks_eraseOp]
  cases s.blocks <;> rfl

theorem contains_iff_mem {l : List Nat} {x : Nat} : l.contains x = true ↔ x ∈ l := by
  induction l with
  | nil => simp
  | cons y ys ih => simp [List.contains_cons, ih]

theorem Inv_eraseOp_of_not_cached (s : FoldState) (i : Nat) (hInv : Inv s)
    (hnc : ∀ p ∈ s.uniquedConstants, p.2 ≠ i) : Inv (eraseOp s i) := by
  obtain ⟨hshape, hcache, hknd, hcknd, hbound⟩ := hInv
  refine ⟨?_, ?_, ?_, hcknd, ?_⟩
  · rw [constShape_iff]
    intro p hp
    rw [ops_eraseOp] at hp
    exact (constShape_iff s).mp hshape p (List.mem_of_mem_filter hp)
  · rw [cacheOK_iff]
    intro q hq
    have hq' : q ∈ s.uniquedConstants := hq
    have hok := (cacheOK_iff s).mp hcache q hq'
    rcases cacheEntryOK_elim hok with ⟨op, hl, h1, h2, h3, h4, h5⟩
    have hci : q.2 ≠ i := hnc q hq'
    refine @cacheEntryOK_intro _ _ _ op ?_ h1 h2 h3 ?_ ?_
    · rw [lookupOp_eraseOp, if_neg hci, hl]
    · rw [entryBlock_eraseOp]
      rw [contains_iff_mem]
      exact List.mem_filter.mpr ⟨contains_iff_mem.mp h4, by simpa using hci⟩
    · intro u hu
      rw [entryBlock_eraseOp] at hu
      unfold opsBefore at hu
      rw [takeWhile_filter_comm _ _ _ (fun x hx => by
        have hxi : x = i := by simpa using hx
        subst hxi
        simpa using (Ne.symm hci))] at hu
      have hu' := List.mem_of_mem_filter hu
      have hemp := h5 u hu'
      unfold emptyOperandsAt at hemp ⊢
      rw [lookupOp_eraseOp]
      by_cases hui : u = i
      · rw [if_pos hui]
      · rw [if_neg hui]
        exact hemp
  · show ((s.ops.filter (fun p => p.1 != i)).map (fun p => p.1)).Nodup
    exact List.Nodup.sublist (List.Sublist.map _ (List.filter_sublist _)) hknd
  · rw [idsBound_iff] at hbound ⊢
    refine ⟨?_, ?_, hbound.2.2⟩
    · intro p hp
      rw [ops_eraseOp] at hp
      exact hbound.1 p (List.mem_of_mem_filter hp)
    · intro b hb j hj
      rw [blocks_eraseOp] at hb
      rcases List.mem_map.mp hb with ⟨b0, hb0, rfl⟩
      exact hbound.2.1 b0 hb0 j (List.mem_of_mem_filter hj)

theorem Inv_cacheErase (s : FoldState) (key : Attr × Ty) (hInv : Inv s) :
    Inv (cacheErase s key) := by
  obtain ⟨hshape, hcache, hknd, hcknd, hbound⟩ := hInv
  refine ⟨hshape, ?_, hknd, ?_, ?_⟩
  · rw [cacheOK_iff]
    intro q hq
    rw [cacheList_cacheErase] at hq
    exact (cacheOK_iff s).mp hcache q (List.mem_of_mem_filter hq)
  · show ((s.uniquedConstants.filter (fun p => p.1 != key)).map (fun p => p.1)).Nodup
    exact List.Nodup.sublist (List.Sublist.map _ (List.filter_sublist _)) hcknd
  · rw [idsBound_iff] at hbound ⊢
    refine ⟨hbound.1, hbound.2.1, ?_⟩
    intro q hq
    rw [cacheList_cacheErase] at hq
    exact hbound.2.2 q (List.mem_of_mem_filter hq)

theorem Inv_notifyRemoval (s : FoldState) (opId : Nat) (hInv : Inv s) :
    Inv (notifyRemoval s opId) := by
  rcases notifyRemoval_eq_or s opId with h | ⟨key, h⟩
  · rw [h]; exact hInv
  · rw [h]; exact Inv_cacheErase s key hInv

theorem not_cached_of_lookup_ne (s : FoldState) (i : Nat) (hInv : Inv s)
    (h : ∀ op, lookupOp s i = some op → op.isConstant = true →
      cacheLookup s (op.constValue, resultType0 op) ≠ some i) :
    ∀ p ∈ s.uniquedConstants, p.2 ≠ i := by
  intro p hp hpi
  have hok := (cacheOK_iff s).mp hInv.2.1 p hp
  rcases cacheEntryOK_elim hok with ⟨op, hl, h1, h2, h3, _, _⟩
  rw [hpi] at hl
  have hrt : resultType0 op = p.1.2 := by
    unfold resultType0
    rw [h3]
    rfl
  have hkey : (op.constValue, resultType0 op) = p.1 := by
    rw [h2, hrt]
  have hfound : cacheLookup s p.1 = some p.2 := by
    unfold cacheLookup
    rw [find_key_of_mem_nodup _ p.1 p.2 hInv.2.2.2.1 (by
      have hpe : p = (p.1, p.2) := rfl
      rw [← hpe]; exact hp)]
    rfl
  exact h op hl h1 (by rw [hkey, hfound, hpi])
/-! #### Invariant preservation: registration and hoisting -/

theorem entryBlock_moveConstant (s : FoldState) (i : Nat) :
    entryBlock (moveConstantToEntryBlock s i) =
      i :: (entryBlock s).filter (fun x => x != i) := by
  unfold entryBlock moveConstantToEntryBlock
  cases s.blocks <;> simp

theorem mem_blocks_moveConstant {s : FoldState} {i : Nat} {b : List Nat} {x : Nat}
    (hb : b ∈ (moveConstantToEntryBlock s i).blocks) (hx : x ∈ b) :
    x = i ∨ ∃ b0 ∈ s.blocks, x ∈ b0 := by
  unfold moveConstantToEntryBlock at hb
  cases hs : s.blocks with
  | nil =>
    rw [hs] at hb
    simp at hb
    subst hb
    left
    simpa using hx
  | cons b1 rest =>
    rw [hs] at hb
    simp only [List.map_cons] at hb
    rcases List.mem_cons.mp hb with hb' | hb'
    · subst hb'
      rcases List.mem_cons.mp hx with hx' | hx'
      · exact Or.inl hx'
      · exact Or.inr ⟨b1, List.mem_cons_self _ _, List.mem_of_mem_filter hx'⟩
    · rcases List.mem_map.mp hb' with ⟨b0, hb0, rfl⟩
      exact Or.inr ⟨b0, List.mem_cons_of_mem _ hb0, List.mem_of_mem_filter hx⟩

theorem cache_not_mem_of_lookup_none {s : FoldState} {key : Attr × Ty}
    (h : cacheLookup s key = none) :
    ∀ p ∈ s.uniquedConstants, (p.1 == key) = false := by
  intro p hp
  by_cases hk : (p.1 == key) = true
  · exfalso
    unfold cacheLookup at h
    cases hf : s.uniquedConstants.find? (fun q => q.1 == key) with
    | some q => rw [hf] at h; cases h
    | none =>
      have := List.find?_eq_none.mp hf p hp
      exact this hk
  · simpa using hk

theorem filter_cache_of_lookup_none {s : FoldState} {key : Attr × Ty}
    (h : cacheLookup s key = none) :
    s.uniquedConstants.filter (fun p => p.1 != key) = s.uniquedConstants := by
  apply List.filter_eq_self.mpr
  intro p hp
  have := cache_not_mem_of_lookup_none h p hp
  simpa [bne] using this

theorem swapFirstTwo_isEmpty {α : Type} (l : List α) :
    (swapFirstTwo l).isEmpty = l.isEmpty := by
  cases l with
  | nil => rfl
  | cons a t => cases t <;> rfl

theorem Inv_register_hoist (s : FoldState) (i : Nat) (op : Operation)
    (key : Attr × Ty)
    (hInv : Inv s) (hl : lookupOp s i = some op) (hc : op.isConstant = true)
    (hk1 : op.constValue = key.1) (hk2 : op.resultTypes = [key.2])
    (hmiss : cacheLookup s key = none) :
    Inv (moveConstantToEntryBlock (cacheInsert s key i) i) := by
  obtain ⟨hshape, hcache, hknd, hcknd, hbound⟩ := hInv
  have hbound' := (idsBound_iff s).mp hbound
  have hILt : i < s.nextId := hbound'.1 _ (lookupOp_mem s i op hl)
  have hop_empty : op.operands = [] :=
    (const_shape_of_lookup ⟨hshape, hcache, hknd, hcknd, hbound⟩ hl hc).1
  have hcachel : (moveConstantToEntryBlock (cacheInsert s key i) i).uniquedConstants =
      (key, i) :: s.uniquedConstants := by
    show (cacheInsert s key i).uniquedConstants = _
    rw [cacheList_cacheInsert, filter_cache_of_lookup_none hmiss]
  have hentry : entryBlock (moveConstantToEntryBlock (cacheInsert s key i) i) =
      i :: (entryBlock s).filter (fun x => x != i) := by
    rw [entryBlock_moveConstant]
    rfl
  have hlookup_eq : ∀ j, lookupOp (moveConstantToEntryBlock (cacheInsert s key i) i) j =
      lookupOp s j := fun j => rfl
  refine ⟨hshape, ?_, hknd, ?_, ?_⟩
  · rw [cacheOK_iff]
    intro q hq
    rw [hcachel] at hq
    rcases List.mem_cons.mp hq with hq' | hq'
    · -- the freshly registered entry
      subst hq'
      refine @cacheEntryOK_intro _ _ _ op (hlookup_eq i ▸ hl) hc hk1 hk2 ?_ ?_
      · rw [hentry, contains_iff_mem]
        exact List.mem_cons_self _ _
      · intro u hu
        rw [hentry] at hu
        unfold opsBefore at hu
        rw [List.takeWhile_cons] at hu
        simp only [bne_self_eq_false] at hu
        rw [if_neg (by simp)] at hu
        cases hu
    · -- a pre-existing entry
      have hok := (cacheOK_iff s).mp hcache q hq'
      rcases cacheEntryOK_elim hok with ⟨opq, hlq, hq1, hq2, hq3, hq4, hq5⟩
      have hqne : q.2 ≠ i := by
        intro he
        rw [he, hl] at hlq
        have hopq : opq = op := by injection hlq.symm
        subst hopq
        have : q.1 = key := by
          have e1 : key.1 = q.1.1 := by rw [← hk1, hq2]
          have e2 : [key.2] = [q.1.2] := by rw [← hk2, hq3]
          have e2' : key.2 = q.1.2 := by injection e2
          have : (q.1.1, q.1.2) = q.1 := rfl
          rw [← this, ← e1, ← e2']
        have hne := cache_not_mem_of_lookup_none hmiss q hq'
        rw [this] at hne
        simp at hne
      refine @cacheEntryOK_intro _ _ _ opq (by rw [hlookup_eq]; exact hlq)
        hq1 hq2 hq3 ?_ ?_
      · rw [hentry, contains_iff_mem]
        exact List.mem_cons_of_mem _
          (List.mem_filter.mpr ⟨contains_iff_mem.mp hq4, by simpa using hqne⟩)
      · intro u hu
        rw [hentry] at hu
        unfold opsBefore at hu
        rw [List.takeWhile_cons, if_pos (by simpa using (Ne.symm hqne))] at hu
        rcases List.mem_cons.mp hu with hu' | hu'
        · rw [hu']
          show emptyOperandsAt _ i = true
          unfold emptyOperandsAt
          rw [hlookup_eq, hl]
          show op.operands.isEmpty = true
          rw [hop_empty]
          rfl
        · rw [takeWhile_filter_comm _ _ _ (fun x hx => by
            have hxi : x = i := by simpa using hx
            subst hxi
            simpa using (Ne.symm hqne))] at hu'
          have hu'' := List.mem_of_mem_filter hu'
          have := hq5 u hu''
          unfold emptyOperandsAt at this ⊢
          rw [hlookup_eq]
          exact this
  · rw [hcachel]
    rw [List.map_cons, List.nodup_cons]
    constructor
    · intro hmem
      rcases List.mem_map.mp hmem with ⟨q, hq, hq1⟩
      have := cache_not_mem_of_lookup_none hmiss q hq
      rw [hq1] at this
      simp at this
    · exact hcknd
  · rw [idsBound_iff]
    refine ⟨?_, ?_, ?_⟩
    · intro p hp
      exact hbound'.1 p hp
    · intro b hb j hj
      rcases mem_blocks_moveConstant hb hj with h' | ⟨b0, hb0, hj0⟩
      · subst h'
        exact hILt
      · exact hbound'.2.1 b0 hb0 j hj0
    · intro q hq
      rw [hcachel] at hq
      rcases List.mem_cons.mp hq with hq' | hq'
      · subst hq'
        exact hILt
      · exact hbound'.2.2 q hq'

theorem entryBlock_insertOpBefore (s : FoldState) (anchor n : Nat) (newOp : Operation) :
    entryBlock (insertOpBefore s anchor n newOp) =
      insertBeforeInBlock (entryBlock s) anchor n := by
  unfold entryBlock
  rw [blocks_insertOpBefore]
  cases s.blocks <;> rfl

theorem Inv_insert_fresh_const (s : FoldState) (anchor : Nat) (a : Attr) (ty : Ty)
    (hInv : Inv s) :
    Inv (insertOpBefore s anchor s.nextId
      { isConstant := true, constValue := a, commutative := false,
        operands := [], resultTypes := [ty] }) := by
  obtain ⟨hshape, hcache, hknd, hcknd, hbound⟩ := hInv
  have hbound' := (idsBound_iff s).mp hbound
  refine ⟨?_, ?_, ?_, hcknd, ?_⟩
  · rw [constShape_iff]
    intro p hp
    rw [ops_insertOpBefore] at hp
    rcases List.mem_cons.mp hp with hp' | hp'
    · rw [hp']
      rfl
    · exact (constShape_iff s).mp hshape p hp'
  · rw [cacheOK_iff]
    intro q hq
    have hq' : q ∈ s.uniquedConstants := hq
    have hok := (cacheOK_iff s).mp hcache q hq'
    rcases cacheEntryOK_elim hok with ⟨opq, hlq, hq1, hq2, hq3, hq4, hq5⟩
    have hqlt : q.2 < s.nextId := hbound'.2.2 q hq'
    have hqne : q.2 ≠ s.nextId := Nat.ne_of_lt hqlt
    refine @cacheEntryOK_intro _ _ _ opq ?_ hq1 hq2 hq3 ?_ ?_
    · rw [lookupOp_insertOpBefore, if_neg hqne, hlq]
    · rw [entryBlock_insertOpBefore, contains_iff_mem]
      exact mem_of_mem_insertBeforeInBlock (contains_iff_mem.mp hq4)
    · intro u hu
      rw [entryBlock_insertOpBefore] at hu
      rcases opsBefore_insertBeforeInBlock (Ne.symm hqne) hu with hu' | hu'
      · rw [hu']
        unfold emptyOperandsAt
        rw [lookupOp_insertOpBefore, if_pos rfl]
        rfl
      · have hun : u ≠ s.nextId := by
          have humem : u ∈ entryBlock s :=
            (mem_takeWhile_sat hu').1
          have : u < s.nextId := by
            unfold entryBlock at humem
            cases hb : s.blocks with
            | nil => rw [hb] at humem; cases humem
            | cons b1 rest =>
              rw [hb] at humem
              exact hbound'.2.1 b1 (by rw [hb]; exact List.mem_cons_self _ _) u humem
          exact Nat.ne_of_lt this
        have := hq5 u hu'
        unfold emptyOperandsAt at this ⊢
        rw [lookupOp_insertOpBefore, if_neg hun]
        exact this
  · rw [ops_insertOpBefore, List.map_cons, List.nodup_cons]
    constructor
    · intro hmem
      rcases List.mem_map.mp hmem with ⟨p, hp, hp1⟩
      have := hbound'.1 p hp
      rw [hp1] at this
      exact Nat.lt_irrefl _ this
    · exact hknd
  · rw [idsBound_iff]
    refine ⟨?_, ?_, ?_⟩
    · intro p hp
      rw [ops_insertOpBefore] at hp
      show p.1 < s.nextId + 1
      rcases List.mem_cons.mp hp with hp' | hp'
      · rw [hp']
        exact Nat.lt_succ_self _
      · exact Nat.lt_succ_of_lt (hbound'.1 p hp')
    · intro b hb j hj
      rw [blocks_insertOpBefore] at hb
      rcases List.mem_map.mp hb with ⟨b0, hb0, rfl⟩
      show j < s.nextId + 1
      rcases mem_insertBeforeInBlock hj with hj' | hj'
      · rw [hj']
        exact Nat.lt_succ_self _
      · exact Nat.lt_succ_of_lt (hbound'.2.1 b0 hb0 j hj')
    · intro q hq
      show q.2 < s.nextId + 1
      exact Nat.lt_succ_of_lt (hbound'.2.2 q hq)

theorem Inv_materializeResult (s : FoldState) (anchor : Nat) (ty : Ty) (fr : FoldRes)
    (hInv : Inv s) : Inv (materializeResult s anchor ty fr).1 := by
  cases fr with
  | value v => exact hInv
  | attr a =>
    cases hcl : cacheLookup s (a, ty) with
    | some c =>
      have he : materializeResult s anchor ty (FoldRes.attr a) = (s, ⟨c, 0⟩) := by
        simp [materializeResult, hcl]
      rw [he]
      exact hInv
    | none =>
      have he : (materializeResult s anchor ty (FoldRes.attr a)).1 =
          moveConstantToEntryBlock
            (cacheInsert
              (insertOpBefore s anchor s.nextId
                { isConstant := true, constValue := a, commutative := false,
                  operands := [], resultTypes := [ty] })
              (a, ty) s.nextId) s.nextId := by
        simp [materializeResult, hcl]
      rw [he]
      apply Inv_register_hoist _ _
        { isConstant := true, constValue := a, commutative := false,
          operands := [], resultTypes := [ty] } (a, ty)
        (Inv_insert_fresh_const s anchor a ty hInv)
      · rw [lookupOp_insertOpBefore, if_pos rfl]
      · rfl
      · rfl
      · rfl
      · exact hcl

theorem Inv_materializeAll (s : FoldState) (anchor : Nat) (frs : List (FoldRes × Ty))
    (hInv : Inv s) : Inv (materializeAll s anchor frs).1 := by
  induction frs generalizing s with
  | nil => exact hInv
  | cons hd rest ih =>
    rcases hd with ⟨fr, ty⟩
    show Inv (materializeAll (materializeResult s anchor ty fr).1 anchor rest).1
    exact ih _ (Inv_materializeResult s anchor ty fr hInv)

theorem Inv_applySwap (s : FoldState) (opId : Nat) (op : Operation)
    (oc : List (Option Attr)) (halive : lookupOp s opId = some op) (hInv : Inv s) :
    Inv (applySwap s opId op oc).1 := by
  by_cases hsw : swapCondition op oc = true
  · have he : (applySwap s opId op oc).1 =
        updateOp s opId { op with operands := swapFirstTwo op.operands } := by
      unfold applySwap
      rw [if_pos hsw]
    rw [he]
    have hmap : s.ops.map
        (fun p => if p.1 == opId
          then (opId, { op with operands := swapFirstTwo op.operands }) else p) =
        s.ops.map (fun p => (p.1,
          if p.1 == opId then { op with operands := swapFirstTwo op.operands }
          else p.2)) := by
      apply List.map_congr_left
      intro p _
      by_cases hpi : (p.1 == opId) = true
      · rw [if_pos hpi, if_pos hpi]
        have : p.1 = opId := by simpa using hpi
        rw [this]
      · rw [if_neg hpi, if_neg hpi]
    have hrec : updateOp s opId { op with operands := swapFirstTwo op.operands } =
        { s with ops := s.ops.map (fun p => (p.1,
          if p.1 == opId then { op with operands := swapFirstTwo op.operands }
          else p.2)) } := by
      unfold updateOp
      exact congrArg (fun l => { s with ops := l }) hmap
    rw [hrec]
    apply Inv_map_ops _ _ _ hInv
    intro p hp
    by_cases hpi : (p.1 == opId) = true
    · have hp1 : p.1 = opId := by simpa using hpi
      have hfind : s.ops.find? (fun q => q.1 == p.1) = some p := by
        apply find_key_of_mem_nodup _ _ _ hInv.2.2.1
        show (p.1, p.2) ∈ s.ops
        exact hp
      have hp2 : p.2 = op := by
        have : lookupOp s p.1 = some p.2 := by
          unfold lookupOp
          rw [hfind]
          rfl
        rw [hp1] at this
        rw [this] at halive
        injection halive
      rw [if_pos hpi, hp2]
      exact ⟨rfl, rfl, rfl, swapFirstTwo_isEmpty _⟩
    · rw [if_neg hpi]
      exact ⟨rfl, rfl, rfl, rfl⟩
  · have he : (applySwap s opId op oc).1 = s := by
      unfold applySwap
      rw [if_neg hsw]
    rw [he]
    exact hInv

theorem Inv_replaceResultsFrom (s : FoldState) (opId start : Nat) (rs : List Val)
    (hInv : Inv s) : Inv (replaceResultsFrom s opId start rs) := by
  induction rs generalizing s start with
  | nil => exact hInv
  | cons r rest ih =>
    show Inv (replaceResultsFrom (replaceAllUsesWith s ⟨opId, start⟩ r) opId
      (start + 1) rest)
    exact ih _ _ (Inv_replaceAllUsesWith _ _ _ hInv)

theorem Inv_tryToFoldImpl (hook : FoldHook) (s : FoldState) (opId : Nat)
    (hInv : Inv s) : Inv (tryToFoldImpl hook s opId).1 := by
  cases hl : lookupOp s opId with
  | none =>
    have : (tryToFoldImpl hook s opId).1 = s := by
      simp [tryToFoldImpl, hl]
    rw [this]
    exact hInv
  | some op =>
    have hswInv : Inv (applySwap s opId op (computeOperandConstants s op)).1 :=
      Inv_applySwap s opId op _ hl hInv
    cases hh : hook (applySwap s opId op (computeOperandConstants s op)).2.1
        (applySwap s opId op (computeOperandConstants s op)).2.2 with
    | none =>
      have : (tryToFoldImpl hook s opId).1 =
          (applySwap s opId op (computeOperandConstants s op)).1 := by
        simp [tryToFoldImpl, hl, hh]
      rw [this]
      exact hswInv
    | some frs =>
      by_cases hemp : frs.isEmpty = true
      · have : (tryToFoldImpl hook s opId).1 =
            (applySwap s opId op (computeOperandConstants s op)).1 := by
          simp [tryToFoldImpl, hl, hh, hemp]
        rw [this]
        exact hswInv
      · have hemp' : frs.isEmpty = false := by simpa using hemp
        have : (tryToFoldImpl hook s opId).1 =
            (materializeAll (applySwap s opId op (computeOperandConstants s op)).1
              opId (frs.zip
                (applySwap s opId op (computeOperandConstants s op)).2.1.resultTypes)).1 := by
          simp [tryToFoldImpl, hl, hh, hemp']
        rw [this]
        exact Inv_materializeAll _ _ _ hswInv

theorem resultTypes_eq_single {s : FoldState} {i : Nat} {op : Operation}
    (hInv : Inv s) (hl : lookupOp s i = some op) (hc : op.isConstant = true) :
    op.resultTypes = [resultType0 op] := by
  have hlen := (const_shape_of_lookup hInv hl hc).2
  cases hrt : op.resultTypes with
  | nil =>
    rw [hrt] at hlen
    cases hlen
  | cons t rest =>
    rw [hrt] at hlen
    have hr : rest = [] := by
      have : rest.length = 0 := by simpa using hlen
      exact List.length_eq_zero.mp this
    subst hr
    unfold resultType0
    rw [hrt]
    rfl

theorem lookupOp_applySwap_fields (s : FoldState) (opId : Nat) (op : Operation)
    (oc : List (Option Attr)) (halive : lookupOp s opId = some op) :
    ∃ op1, lookupOp (applySwap s opId op oc).1 opId = some op1 ∧
      op1.isConstant = op.isConstant ∧ op1.constValue = op.constValue ∧
      op1.resultTypes = op.resultTypes := by
  by_cases hsw : swapCondition op oc = true
  · refine ⟨{ op with operands := swapFirstTwo op.operands }, ?_, rfl, rfl, rfl⟩
    have he : (applySwap s opId op oc).1 =
        updateOp s opId { op with operands := swapFirstTwo op.operands } := by
      unfold applySwap
      rw [if_pos hsw]
    rw [he, lookupOp_updateOp, if_pos rfl, halive]
    rfl
  · refine ⟨op, ?_, rfl, rfl, rfl⟩
    have he : (applySwap s opId op oc).1 = s := by
      unfold applySwap
      rw [if_neg hsw]
    rw [he, halive]

theorem tryToFoldImpl_lookup_fields (hook : FoldHook) (s : FoldState) (opId : Nat)
    (op : Operation) (hInv : Inv s) (hl : lookupOp s opId = some op) :
    ∃ op1, lookupOp (tryToFoldImpl hook s opId).1 opId = some op1 ∧
      op1.isConstant = op.isConstant ∧ op1.constValue = op.constValue ∧
      op1.resultTypes = op.resultTypes := by
  have hlt : opId < s.nextId :=
    ((idsBound_iff s).mp hInv.2.2.2.2).1 _ (lookupOp_mem s opId op hl)
  rcases lookupOp_applySwap_fields s opId op (computeOperandConstants s op) hl with
    ⟨op1, hswl, f1, f2, f3⟩
  cases hh : hook (applySwap s opId op (computeOperandConstants s op)).2.1
      (applySwap s opId op (computeOperandConstants s op)).2.2 with
  | none =>
    refine ⟨op1, ?_, f1, f2, f3⟩
    have he : (tryToFoldImpl hook s opId).1 =
        (applySwap s opId op (computeOperandConstants s op)).1 := by
      simp [tryToFoldImpl, hl, hh]
    rw [he]
    exact hswl
  | some frs =>
    by_cases hemp : frs.isEmpty = true
    · refine ⟨op1, ?_, f1, f2, f3⟩
      have he : (tryToFoldImpl hook s opId).1 =
          (applySwap s opId op (computeOperandConstants s op)).1 := by
        simp [tryToFoldImpl, hl, hh, hemp]
      rw [he]
      exact hswl
    · have hemp' : frs.isEmpty = false := by simpa using hemp
      refine ⟨op1, ?_, f1, f2, f3⟩
      have he : (tryToFoldImpl hook s opId).1 =
          (materializeAll (applySwap s opId op (computeOperandConstants s op)).1
            opId (frs.zip
              (applySwap s opId op (computeOperandConstants s op)).2.1.resultTypes)).1 := by
        simp [tryToFoldImpl, hl, hh, hemp']
      rw [he]
      have hlt2 : opId < (applySwap s opId op (computeOperandConstants s op)).1.nextId := by
        rw [nextId_applySwap]
        exact hlt
      rw [(lookupOp_materializeAll _ _ _ _ hlt2).1]
      exact hswl

theorem Inv_tryToFold (hook : FoldHook) (s : FoldState) (opId : Nat) (hInv : Inv s) :
    Inv (tryToFold hook s opId).state := by
  cases hl : lookupOp s opId with
  | none =>
    have hout : (tryToFold hook s opId).state = s := by
      simp [tryToFold, hl]
    rw [hout]
    exact hInv
  | some op =>
    by_cases hc : op.isConstant = true
    · by_cases hd : useEmpty s opId = true
      · -- dead constant: notifyRemoval then erase
        have hout : (tryToFold hook s opId).state =
            eraseOp (notifyRemoval s opId) opId := by
          simp [tryToFold, hl, hc, hd]
        rw [hout]
        have hInv2 := Inv_notifyRemoval s opId hInv
        apply Inv_eraseOp_of_not_cached _ _ hInv2
        apply not_cached_of_lookup_ne _ _ hInv2
        intro op' hl' hc'
        have hlsame : lookupOp (notifyRemoval s opId) opId = lookupOp s opId := by
          rcases notifyRemoval_eq_or s opId with h | ⟨key, h⟩ <;> rw [h] <;> rfl
        rw [hlsame, hl] at hl'
        have hoe : op' = op := by
          injection hl' with h'
          exact h'.symm
        rw [hoe]
        cases hcl : cacheLookup s (op.constValue, resultType0 op) with
        | none =>
          have hnr : notifyRemoval s opId = s := by
            simp [notifyRemoval, hl, matchConstOp, hc, hcl]
          rw [hnr, hcl]
          simp
        | some c =>
          by_cases hci : c = opId
          · have hnr : notifyRemoval s opId =
                cacheErase s (op.constValue, resultType0 op) := by
              simp [notifyRemoval, hl, matchConstOp, hc, hcl, hci]
            rw [hnr, cacheLookup_cacheErase, if_pos rfl]
            simp
          · have hnr : notifyRemoval s opId = s := by
              simp [notifyRemoval, hl, matchConstOp, hc, hcl, hci]
            rw [hnr, hcl]
            simp [hci]
      · -- unification
        have hd' : useEmpty s opId = false := by simpa using hd
        have hout : (tryToFold hook s opId).state = (tryToUnify s opId).1 := by
          simp [tryToFold, hl, hc, hd']
        rw [hout]
        cases hcl : cacheLookup s (op.constValue, resultType0 op) with
        | none =>
          have he : (tryToUnify s opId).1 =
              moveConstantToEntryBlock
                (cacheInsert s (op.constValue, resultType0 op) opId) opId := by
            simp [tryToUnify, hl, matchConstOp, hc, hcl]
          rw [he]
          exact Inv_register_hoist s opId op _ hInv hl hc rfl
            (resultTypes_eq_single hInv hl hc) hcl
        | some c =>
          by_cases hci : c = opId
          · have he : (tryToUnify s opId).1 = s := by
              simp [tryToUnify, hl, matchConstOp, hc, hcl, hci]
            rw [he]
            exact hInv
          · have hci' : (c == opId) = false := by simpa using hci
            have he : (tryToUnify s opId).1 =
                eraseOp (replaceAllUsesWith s ⟨opId, 0⟩ ⟨c, 0⟩) opId := by
              simp [tryToUnify, hl, matchConstOp, hc, hcl, hci']
            rw [he]
            have hInv3 := Inv_replaceAllUsesWith s ⟨opId, 0⟩ ⟨c, 0⟩ hInv
            apply Inv_eraseOp_of_not_cached _ _ hInv3
            apply not_cached_of_lookup_ne _ _ hInv3
            intro op' hl' hc''
            rw [lookupOp_replaceAllUsesWith, hl] at hl'
            have hop' : op' =
                { op with operands :=
                  op.operands.map (replaceVal ⟨opId, 0⟩ ⟨c, 0⟩) } := by
              injection hl' with h'
              exact h'.symm
            have hkey : (op'.constValue, resultType0 op') =
                (op.constValue, resultType0 op) := by
              rw [hop']
              rfl
            rw [hkey]
            show cacheLookup (replaceAllUsesWith s ⟨opId, 0⟩ ⟨c, 0⟩) _ ≠ _
            rw [cacheLookup_replaceAllUsesWith, hcl]
            intro h
            exact hci (by injection h)
    · -- generic folding
      have hc' : op.isConstant = false := by simpa using hc
      cases hti : tryToFoldImpl hook s opId with
      | mk s1 ro =>
        have hInv1 : Inv s1 := by
          have h := Inv_tryToFoldImpl hook s opId hInv
          rw [hti] at h
          exact h
        cases ro with
        | none =>
          have hout : (tryToFold hook s opId).state = s1 := by
            simp [tryToFold, hl, hc', hti]
          rw [hout]
          exact hInv1
        | some results =>
          by_cases hemp : results.isEmpty = true
          · have hout : (tryToFold hook s opId).state = s1 := by
              simp [tryToFold, hl, hc', hti, hemp]
            rw [hout]
            exact hInv1
          · have hemp' : results.isEmpty = false := by simpa using hemp
            have hout : (tryToFold hook s opId).state =
                eraseOp (replaceResultsFrom s1 opId 0 results) opId := by
              simp [tryToFold, hl, hc', hti, hemp']
            rw [hout]
            have hInv2 := Inv_replaceResultsFrom s1 opId 0 results hInv1
            apply Inv_eraseOp_of_not_cached _ _ hInv2
            apply not_cached_of_lookup_ne _ _ hInv2
            intro op' hl' hcx
            exfalso
            rcases tryToFoldImpl_lookup_fields hook s opId op hInv hl with
              ⟨op1, hl1, f1, f2, f3⟩
            rw [hti] at hl1
            rw [lookupOp_replaceResultsFrom, hl1] at hl'
            have hop' : op' =
                { op1 with operands :=
                  op1.operands.map (seqSubstFrom opId 0 results) } := by
              injection hl' with h'
              exact h'.symm
            rw [hop'] at hcx
            have : op.isConstant = true := by
              rw [← f1]
              exact hcx
            rw [hc'] at this
            cases this

theorem Inv_runCall (hook : FoldHook) (s : FoldState) (c : EngineCall) (hInv : Inv s) :
    Inv (runCall hook s c) := by
  cases c with
  | fold opId => exact Inv_tryToFold hook s opId hInv
  | removal opId => exact Inv_notifyRemoval s opId hInv

theorem Inv_runCalls (hook : FoldHook) (s : FoldState) (calls : List EngineCall)
    (hInv : Inv s) : Inv (runCalls hook s calls) := by
  induction calls generalizing s with
  | nil => exact hInv
  | cons c rest ih =>
    show Inv (runCalls hook (runCall hook s c) rest)
    exact ih _ (Inv_runCall hook s c hInv)

/-! #### Dominance from the invariant -/

theorem cacheLookup_mem {s : FoldState} {a : Attr} {t : Ty} {c : Nat}
    (hcl : cacheLookup s (a, t) = some c) : ((a, t), c) ∈ s.uniquedConstants := by
  unfold cacheLookup at hcl
  cases hf : s.uniquedConstants.find? (fun q => q.1 == (a, t)) with
  | none => rw [hf] at hcl; cases hcl
  | some q =>
    rw [hf] at hcl
    have hq1 : (q.1 == (a, t)) = true :=
      @List.find?_some _ (fun q0 => q0.1 == (a, t)) q _ hf
    have hq2 : q.2 = c := by simpa using hcl
    have hq1' : q.1 = (a, t) := by simpa using hq1
    have hqe : q = ((a, t), c) := by
      cases q
      simp only at hq1' hq2
      rw [hq1', hq2]
    rw [← hqe]
    exact List.mem_of_find?_eq_some hf

theorem dominance_of_Inv (s : FoldState) (hInv : Inv s) :
    ∀ a t c, cacheLookup s (a, t) = some c →
      (lookupOp s c).isSome = true ∧ (entryBlock s).contains c = true ∧
      ∀ u opu pu, lookupOp s u = some opu →
        opu.operands.any (fun v => v.producer == c) = true →
        posOf s u = some pu →
        ∃ pc, posOf s c = some pc ∧ posLt pc pu = true := by
  intro a t c hcl
  have hmem : ((a, t), c) ∈ s.uniquedConstants := cacheLookup_mem hcl
  have hok := (cacheOK_iff s).mp hInv.2.1 _ hmem
  rcases cacheEntryOK_elim hok with ⟨opc, hlc, hc1, _, _, hc4, hc5⟩
  refine ⟨by rw [hlc]; rfl, hc4, ?_⟩
  intro u opu pu hlu huse hpos
  have hcempty : opc.operands = [] := (const_shape_of_lookup hInv hlc hc1).1
  have hcmem : c ∈ entryBlock s := contains_iff_mem.mp hc4
  rcases List.any_eq_true.mp huse with ⟨v, hvmem, hvp⟩
  have hune : u ≠ c := by
    intro he
    rw [he, hlc] at hlu
    have hoe : opu = opc := by
      injection hlu with h'
      exact h'.symm
    rw [hoe, hcempty] at hvmem
    cases hvmem
  have hunp : u ∉ opsBefore (entryBlock s) c := by
    intro hup
    have hempu := hc5 u hup
    unfold emptyOperandsAt at hempu
    rw [hlu] at hempu
    have : opu.operands = [] := List.isEmpty_iff.mp hempu
    rw [this] at hvmem
    cases hvmem
  cases hb : s.blocks with
  | nil =>
    exfalso
    unfold entryBlock at hcmem
    rw [hb] at hcmem
    cases hcmem
  | cons e rest =>
    have hentry : entryBlock s = e := by
      unfold entryBlock
      rw [hb]
      rfl
    have hcin : c ∈ e := hentry ▸ hcmem
    have hposc : posOf s c = some (0, (e.takeWhile (fun y => y != c)).length) := by
      unfold posOf
      rw [hb]
      show (match idxIn e c with
        | some i => some ((0 : Nat), i)
        | none => (posOfAux rest c).map (fun (p : Nat × Nat) => (p.1 + 1, p.2))) = _
      unfold idxIn
      rw [if_pos (contains_iff_mem.mpr hcin)]
    unfold posOf at hpos
    rw [hb] at hpos
    have hpos' : (match idxIn e u with
        | some i => some ((0 : Nat), i)
        | none => (posOfAux rest u).map (fun (p : Nat × Nat) => (p.1 + 1, p.2))) = some pu := hpos
    cases hiu : idxIn e u with
    | some iu =>
      rw [hiu] at hpos'
      have hpu : pu = (0, iu) := by
        injection hpos' with h'
        exact h'.symm
      have hiu2 : u ∈ e ∧ iu = (e.takeWhile (fun y => y != u)).length := by
        unfold idxIn at hiu
        by_cases hcon : e.contains u = true
        · rw [if_pos hcon] at hiu
          refine ⟨contains_iff_mem.mp hcon, ?_⟩
          injection hiu with h'
          exact h'.symm
        · rw [if_neg hcon] at hiu
          cases hiu
      rcases dropWhile_ne_cons e c hcin with ⟨R, hR⟩
      have hsplit : e = e.takeWhile (fun y => y != c) ++ c :: R := by
        conv_lhs => rw [← @List.takeWhile_append_dropWhile _ (fun y => y != c) e]
        rw [hR]
      have htw : e.takeWhile (fun y => y != u) =
          e.takeWhile (fun y => y != c) ++ (c :: R).takeWhile (fun y => y != u) := by
        conv_lhs => rw [hsplit]
        apply takeWhile_append_of_all
        intro x hx
        have hxu : x ≠ u := by
          intro he
          rw [← hentry] at hx
          exact hunp (he ▸ hx)
        simpa using hxu
      have hcu : (c != u) = true := by
        simpa using (Ne.symm hune)
      refine ⟨_, hposc, ?_⟩
      rw [hpu]
      unfold posLt
      simp only [Nat.lt_irrefl, beq_self_eq_true, Bool.true_and, Bool.false_or]
      rw [hiu2.2, htw]
      rw [List.takeWhile_cons, if_pos hcu, List.length_append, List.length_cons]
      simp
    | none =>
      rw [hiu] at hpos'
      cases hrec : posOfAux rest u with
      | none =>
        rw [hrec] at hpos'
        cases hpos'
      | some p =>
        rw [hrec] at hpos'
        have hpu : pu = (p.1 + 1, p.2) := by
          injection hpos' with h'
          exact h'.symm
        refine ⟨_, hposc, ?_⟩
        rw [hpu]
        unfold posLt
        simp

/-- C2: after any sequence of `tryToFold` and `notifyRemoval` calls
from a state satisfying the folder invariant, every operation stored in
`uniquedConstants` is alive, sits in the function's entry block, and is
positioned strictly before every use of its result anywhere in the
function; and hoisting always inserts at position zero of the entry
block, so the most-recently-hoisted constant is closest to the top. -/
theorem uniquedConstants_dominate (hook : FoldHook) (s0 : FoldState)
    (calls : List EngineCall) (hInv : Inv s0) :
    (∀ a t c, cacheLookup (runCalls hook s0 calls) (a, t) = some c →
      (lookupOp (runCalls hook s0 calls) c).isSome = true ∧
      (entryBlock (runCalls hook s0 calls)).contains c = true ∧
      ∀ u opu pu, lookupOp (runCalls hook s0 calls) u = some opu →
        opu.operands.any (fun v => v.producer == c) = true →
        posOf (runCalls hook s0 calls) u = some pu →
        ∃ pc, posOf (runCalls hook s0 calls) c = some pc ∧ posLt pc pu = true) ∧
    (∀ t i, ((moveConstantToEntryBlock t i).blocks.headD []).head? = some i) :=
  ⟨dominance_of_Inv _ (Inv_runCalls hook s0 calls hInv),
   fun t i => moveConstant_head t i⟩

def w2Hook : FoldHook := fun _ oc =>
  match oc with
  | [some x, some y] => some [FoldRes.attr (x + y)]
  | _ => none

def w2State : FoldState :=
  { ops := [(0, w4Const2), (1, w4Const3), (2, w4Add), (3, w4User)],
    blocks := [[0, 1, 2, 3]], uniquedConstants := [], nextId := 4 }

def w2Calls : List EngineCall :=
  [EngineCall.fold 0, EngineCall.fold 2, EngineCall.removal 1]

/-- Witness for C2 at a concrete four-operation function run through
three engine calls (unifying a constant, folding an add, notifying a
removal). -/
theorem uniquedConstants_dominate_witness :
    Inv w2State ∧
    ((∀ a t c, cacheLookup (runCalls w2Hook w2State w2Calls) (a, t) = some c →
      (lookupOp (runCalls w2Hook w2State w2Calls) c).isSome = true ∧
      (entryBlock (runCalls w2Hook w2State w2Calls)).contains c = true ∧
      ∀ u opu pu, lookupOp (runCalls w2Hook w2State w2Calls) u = some opu →
        opu.operands.any (fun v => v.producer == c) = true →
        posOf (runCalls w2Hook w2State w2Calls) u = some pu →
        ∃ pc, posOf (runCalls w2Hook w2State w2Calls) c = some pc ∧
          posLt pc pu = true) ∧
    (∀ t i, ((moveConstantToEntryBlock t i).blocks.headD []).head? = some i)) :=
  ⟨by decide, uniquedConstants_dominate w2Hook w2State w2Calls (by decide)⟩

end MLIRFold
